import Mathlib

set_option maxHeartbeats 1000000

/-!
Shallow embedding of the dok.c documentation tool.

C strings are modelled as `List Char`; the fixed-size buffers of the C code
appear as explicit `take` truncations with the exact C bounds
(MAX_NAME_LENGTH - 1 = 127, MAX_PATH_LENGTH - 1 = 255,
MAX_CONTENT_LENGTH - 1 = 511, MAX_ITEMS = 100).  Files are modelled as the
list of physical lines delivered by fgets.  The persisted documentation
store is modelled as a list of lines; this matches the C program whenever
no stored field contains an embedded newline, which the relevant theorems
assume explicitly.
-/

/-- C isspace on the six standard ASCII whitespace characters. -/
def isSpaceC (c : Char) : Bool :=
  c = ' ' || c = '\t' || c = '\n' || c = '\x0b' || c = '\x0c' || c = '\r'

/-- Identifier characters accepted by the backward scans: isalnum or underscore. -/
def isIdentC (c : Char) : Bool :=
  c.isAlpha || c.isDigit || c = '_'

/-- Drop trailing whitespace (used to model the tail end of trim_whitespace). -/
def rstrip : List Char → List Char
  | [] => []
  | a :: t =>
    match rstrip t with
    | [] => if isSpaceC a then [] else [a]
    | b :: r => a :: b :: r

/-- trim_whitespace of dok.c.  The function advances a local pointer past
leading whitespace but writes the terminating NUL only at the tail, so the
buffer handed back to the caller keeps its leading whitespace; when the whole
string is whitespace the function returns before modifying anything. -/
def trim_whitespace (s : List Char) : List Char :=
  if s.all isSpaceC then s else rstrip s

/-- First index satisfying a predicate (the forward strchr scans). -/
def firstIdxG {α : Type} (p : α → Bool) : List α → Option Nat
  | [] => none
  | a :: t => if p a then some 0 else (firstIdxG p t).map (· + 1)

/-- Backward pointer scan shared by extract_return_type and
extract_function_name: starting from index i, step left while the index is
positive and the character there is an identifier character; return the index
where the scan stops. -/
def backScan (l : List Char) : Nat → Nat
  | 0 => 0
  | j + 1 => if isIdentC (l.getD (j + 1) ' ') then backScan l j else j + 1

/-- ends_with_2 s c1 c2 models `len > 2 && strcmp(s + len - 2, "<c1><c2>") == 0`. -/
def ends_with_2 (s : List Char) (c1 c2 : Char) : Bool :=
  s.length > 2 && s.drop (s.length - 2) == [c1, c2]

/-- is_c_file of dok.c: name ends in ".c" or ".h" with length above two. -/
def is_c_file (filename : List Char) : Bool :=
  ends_with_2 filename '.' 'c' || ends_with_2 filename '.' 'h'

/-- extract_return_type of dok.c.  The signature is first copied into a
127-character buffer; the text is cut at the first parenthesis, the backward
scan locates the character just before the function name, a NUL is written at
that character (deleting it), and the remainder is trimmed. -/
def extract_return_type (signature : List Char) : List Char :=
  let temp := signature.take 127
  match firstIdxG (fun c => c == '(') temp with
  | none => "void".data
  | some p =>
    if p = 0 then "void".data
    else
      let j := backScan temp (p - 1)
      if j = 0 then "void".data
      else
        let pre := trim_whitespace (temp.take j)
        if pre.length = 0 then "int".data
        else pre.take 127

/-- extract_function_name of dok.c: backward scan from the first parenthesis,
then one step forward; the result is truncated to 127 characters. -/
def extract_function_name (signature : List Char) : Option (List Char) :=
  match firstIdxG (fun c => c == '(') signature with
  | none => none
  | some p =>
    if p = 0 then none
    else
      let start := backScan signature (p - 1) + 1
      if start ≥ p then none
      else
        let len := if p - start ≥ 128 then 127 else p - start
        let name := (signature.drop start).take len
        if name.length > 0 then some name else none

def kwSlashSlash : List Char := "//".data
def kwSlashStar : List Char := "/*".data
def kwHash : List Char := "#".data
def kwTypedef : List Char := "typedef".data
def kwStruct : List Char := "struct".data
def kwEnum : List Char := "enum".data
def kwUnion : List Char := "union".data

/-- is_function_line of dok.c.  The classifier receives the line already
passed through trim_whitespace by parse_c_file (which leaves leading
whitespace in place), rejects comments, preprocessor lines, aggregate
keywords, lines without both parentheses and indented lines, and then for
header files accepts any remaining non-empty line while for .c files it also
requires the line not to end in a semicolon. -/
def is_function_line (line : List Char) (filename : List Char) : Bool :=
  if kwSlashSlash.isPrefixOf line then false
  else if kwSlashStar.isPrefixOf line then false
  else if kwHash.isPrefixOf line then false
  else if kwTypedef.isPrefixOf line then false
  else if kwStruct.isPrefixOf line then false
  else if kwEnum.isPrefixOf line then false
  else if kwUnion.isPrefixOf line then false
  else if !(line.contains '(') || !(line.contains ')') then false
  else if line.headD 'x' == ' ' || line.headD 'x' == '\t' then false
  else
    let trimmed := trim_whitespace line
    let is_header := ends_with_2 filename '.' 'h'
    if is_header then trimmed.length > 0
    else trimmed.length > 0 && !(trimmed.getLastD 'x' == ';')

/-- function_t of dok.c (the revision without parameter parsing).  The C
field `example` is called `exampl` here because `example` is reserved. -/
structure FunctionT where
  name : List Char
  signature : List Char
  filename : List Char
  line_number : Nat
  description : List Char
  parameters : List Char
  return_value : List Char
  exampl : List Char
  notes : List Char
  is_documented : Bool
  return_type : List Char
deriving DecidableEq

/-- source_file_t of dok.c; function_count is the length of `functions`. -/
structure SourceFileT where
  filename : List Char
  full_path : List Char
  functions : List FunctionT
deriving DecidableEq

/-- The fresh, zero-initialized function record built by parse_c_file. -/
def mkFunction (line : List Char) (nm : List Char) (fname : List Char) (ln : Nat) : FunctionT :=
  { name := nm
    signature := line.take 127
    filename := fname.take 255
    line_number := ln
    description := []
    parameters := []
    return_value := []
    exampl := []
    notes := []
    is_documented := false
    return_type := extract_return_type line }

/-- The fgets loop of parse_c_file: 1-based line counter, admission stops
once 100 functions are stored. -/
def parse_c_lines (filepath : List Char) : List (List Char) → Nat → List FunctionT → List FunctionT
  | [], _, acc => acc
  | raw :: rest, ln, acc =>
    if acc.length ≥ 100 then acc
    else
      let line := trim_whitespace raw
      if is_function_line line filepath then
        match extract_function_name line with
        | some nm => parse_c_lines filepath rest (ln + 1) (acc ++ [mkFunction line nm filepath (ln + 1)])
        | none => parse_c_lines filepath rest (ln + 1) acc
      else parse_c_lines filepath rest (ln + 1) acc

/-- parse_c_file of dok.c on the list of lines of one file. -/
def parse_c_file (filepath : List Char) (content : List (List Char)) : List FunctionT :=
  parse_c_lines filepath content 0 []

/-- scan_project_files of dok.c over a directory listing given as pairs of
file name and file content; a file is admitted only when it matched the
.c or .h filter and produced at least one function, and admission stops at
100 files. -/
def scan_go : List (List Char × List (List Char)) → List SourceFileT → List SourceFileT
  | [], acc => acc
  | (nm, content) :: rest, acc =>
    if acc.length ≥ 100 then acc
    else if is_c_file nm then
      let fns := parse_c_file nm content
      if fns.length > 0 then
        scan_go rest (acc ++ [{ filename := nm.take 255, full_path := nm.take 255, functions := fns }])
      else scan_go rest acc
    else scan_go rest acc

def scan_project_files (listing : List (List Char × List (List Char))) : List SourceFileT :=
  scan_go listing []

def kwFUNCTION : List Char := "FUNCTION: ".data
def kwFILE : List Char := "FILE: ".data
def kwLINE : List Char := "LINE: ".data
def kwSIGNATURE : List Char := "SIGNATURE: ".data
def kwDESCRIPTION : List Char := "DESCRIPTION: ".data
def kwPARAMETERS : List Char := "PARAMETERS: ".data
def kwRETURN : List Char := "RETURN: ".data
def kwEXAMPLE : List Char := "EXAMPLE: ".data
def kwNOTES : List Char := "NOTES: ".data
def kwDashes : List Char := "---".data

/-- One store block written by save_documentation for a documented function. -/
def docBlock (fn : FunctionT) : List (List Char) :=
  [kwFUNCTION ++ fn.name,
   kwFILE ++ fn.filename,
   kwLINE ++ (Nat.repr fn.line_number).data,
   kwSIGNATURE ++ fn.signature,
   kwDESCRIPTION ++ fn.description,
   kwPARAMETERS ++ fn.parameters,
   kwRETURN ++ fn.return_value,
   kwEXAMPLE ++ fn.exampl,
   kwNOTES ++ fn.notes,
   kwDashes]

/-- Store lines produced for one scanned file. -/
def fileBlocks (fl : SourceFileT) : List (List Char) :=
  (fl.functions.map (fun fn => if fn.is_documented then docBlock fn else [])).flatten

/-- save_documentation of dok.c: two header comment lines, a blank line, then
one block per documented function in catalog iteration order. -/
def save_documentation (files : List SourceFileT) : List (List Char) :=
  "# Project Documentation".data ::
  "# Auto-generated - do not edit the function signatures".data ::
  [] ::
  (files.map fileBlocks).flatten

/-- Index-targeted list update used to model in-place writes through the
function pointer obtained in load_documentation. -/
def modifyIdx {α : Type} : List α → Nat → (α → α) → List α
  | [], _, _ => []
  | a :: t, 0, g => g a :: t
  | a :: t, n + 1, g => a :: modifyIdx t n g

def setIdx {α : Type} (l : List α) (n : Nat) (v : α) : List α :=
  modifyIdx l n (fun _ => v)

/-- The lookup loop of load_documentation: scan files for the first filename
match and break out of the outer loop whether or not the inner name search
succeeds there. -/
def findFn (files : List SourceFileT) (fname nm : List Char) : Option (Nat × Nat) :=
  match firstIdxG (fun fl => fl.filename == fname) files with
  | none => none
  | some i =>
    match files.get? i with
    | none => none
    | some fl =>
      match firstIdxG (fun fn => fn.name == nm) fl.functions with
      | none => none
      | some j => some (i, j)

def getFn (files : List SourceFileT) (i j : Nat) : Option FunctionT :=
  match files.get? i with
  | none => none
  | some fl => fl.functions.get? j

def updFn (files : List SourceFileT) (i j : Nat) (g : FunctionT → FunctionT) : List SourceFileT :=
  modifyIdx files i (fun fl => { fl with functions := modifyIdx fl.functions j g })

/-- Parser state of load_documentation: the two current-key buffers plus the
catalog being annotated. -/
structure LoadState where
  current_func_name : List Char
  current_filename : List Char
  files : List SourceFileT
deriving DecidableEq

/-- One iteration of the fgets loop of load_documentation. -/
def load_step (st : LoadState) (raw : List Char) : LoadState :=
  let line := trim_whitespace raw
  if kwFUNCTION.isPrefixOf line then
    { st with current_func_name := (line.drop 10).take 127 }
  else if kwFILE.isPrefixOf line then
    { st with current_filename := (line.drop 6).take 255 }
  else if st.current_func_name.length > 0 && st.current_filename.length > 0 then
    match findFn st.files st.current_filename st.current_func_name with
    | none => st
    | some (i, j) =>
      if kwDESCRIPTION.isPrefixOf line then
        { st with files := updFn st.files i j (fun fn =>
            { fn with description := (line.drop 13).take 511, is_documented := true }) }
      else if kwPARAMETERS.isPrefixOf line then
        { st with files := updFn st.files i j (fun fn =>
            { fn with parameters := (line.drop 12).take 511 }) }
      else if kwRETURN.isPrefixOf line then
        { st with files := updFn st.files i j (fun fn =>
            { fn with return_value := (line.drop 8).take 511 }) }
      else if kwEXAMPLE.isPrefixOf line then
        { st with files := updFn st.files i j (fun fn =>
            { fn with exampl := (line.drop 9).take 511 }) }
      else if kwNOTES.isPrefixOf line then
        { st with files := updFn st.files i j (fun fn =>
            { fn with notes := (line.drop 7).take 511 }) }
      else if line = kwDashes then
        { st with current_func_name := [], current_filename := [] }
      else st
  else st

/-- load_documentation of dok.c applied to a store given as its lines. -/
def load_documentation (storeLines : List (List Char)) (files : List SourceFileT) : List SourceFileT :=
  (storeLines.foldl load_step
    { current_func_name := [], current_filename := [], files := files }).files

/-- The five free-text answers typed during one pass of the edit flow. -/
structure EditInputs where
  d_in : List Char
  p_in : List Char
  r_in : List Char
  e_in : List Char
  n_in : List Char
deriving DecidableEq

/-- edit_function_documentation of dok.c: each non-empty answer overwrites
its field, and is_documented is set unconditionally at the end. -/
def edit_function_documentation (fn : FunctionT) (inp : EditInputs) : FunctionT :=
  let f1 := if inp.d_in.length > 0 then { fn with description := inp.d_in.take 511 } else fn
  let f2 := if inp.p_in.length > 0 then { f1 with parameters := inp.p_in.take 511 } else f1
  let f3 := if inp.r_in.length > 0 then { f2 with return_value := inp.r_in.take 511 } else f2
  let f4 := if inp.e_in.length > 0 then { f3 with exampl := inp.e_in.take 511 } else f3
  let f5 := if inp.n_in.length > 0 then { f4 with notes := inp.n_in.take 511 } else f4
  { f5 with is_documented := true }

/-- Net brace count of one line as accumulated by print_function_source. -/
def braceDelta (l : List Char) : Int :=
  (l.count '{' : Int) - (l.count '}' : Int)

/-- The in_function phase of print_function_source: emit each line, add its
brace delta to the running balance, and stop right after the first line that
leaves the balance at zero or below. -/
def pfs_body (bal : Int) : List (List Char) → Nat → List (Nat × List Char)
  | [], _ => []
  | l :: rest, n =>
    (n, l) :: (if bal + braceDelta l ≤ 0 then [] else pfs_body (bal + braceDelta l) rest (n + 1))

/-- print_function_source of dok.c, as the pair of the found flag and the
emitted numbered lines.  The starting line is always emitted when reached;
for a header file whose trimmed starting line ends in a semicolon only that
line is shown; otherwise the brace-balance phase runs on the following lines
seeded with the braces of the starting line. -/
def print_function_source (fname : List Char) (target : Nat) (fileLines : List (List Char)) :
    Bool × List (Nat × List Char) :=
  if 1 ≤ target ∧ target ≤ fileLines.length then
    let l0 := fileLines.getD (target - 1) []
    let trimmed := trim_whitespace l0
    if ends_with_2 fname '.' 'h' && trimmed.length > 0 && (trimmed.getLastD 'x' == ';') then
      (true, [(target, l0)])
    else
      (true, (target, l0) :: pfs_body (braceDelta l0) (fileLines.drop target) (target + 1))
  else (false, [])

/-- Startup portion of main: exit code 1 when a directory argument is given
and chdir fails, and again when the catalog is empty after the initial scan
and load; otherwise the navigation loop is entered with the catalog. -/
def main_startup (arg_dir : Option (List Char)) (chdir_ok : Bool)
    (listing : List (List Char × List (List Char))) (store : List (List Char)) :
    Except Nat (List SourceFileT) :=
  if arg_dir.isSome && !chdir_ok then Except.error 1
  else
    let files := load_documentation store (scan_project_files listing)
    if files.length = 0 then Except.error 1
    else Except.ok files

/-- Count of directory entries passing the .c/.h filter. -/
def eligibleCount (listing : List (List Char × List (List Char))) : Nat :=
  (listing.filter (fun e => is_c_file e.1)).length

/-! Frame of the catalog: everything load_documentation may not touch. -/

abbrev FnFrameT := List Char × List Char × List Char × Nat × List Char

/-- The scanner-owned fields of a function record. -/
def fnFrame (fn : FunctionT) : FnFrameT :=
  (fn.name, fn.signature, fn.filename, fn.line_number, fn.return_type)

/-- The scanner-owned fields of a file record. -/
def fileFrame (fl : SourceFileT) : List Char × List Char × List FnFrameT :=
  (fl.filename, fl.full_path, fl.functions.map fnFrame)

def catFrame (files : List SourceFileT) : List (List Char × List Char × List FnFrameT) :=
  files.map fileFrame

/-- The documentation flags of the whole catalog. -/
def docFlags (files : List SourceFileT) : List (List Bool) :=
  files.map (fun fl => fl.functions.map (fun fn => fn.is_documented))



/-- Zero value used only to total the headD projections in concrete tests. -/
def fnDefault : FunctionT :=
  { name := [], signature := [], filename := [], line_number := 0, description := [],
    parameters := [], return_value := [], exampl := [], notes := [], is_documented := false,
    return_type := [] }

/-- Running brace balance after each emitted line. -/
def runBal (bal : Int) : List (List Char) → List Int
  | [] => []
  | l :: rest => (bal + braceDelta l) :: runBal (bal + braceDelta l) rest

/-- Attach 1-based line numbers starting at n. -/
def numberFrom (n : Nat) : List (List Char) → List (Nat × List Char)
  | [] => []
  | l :: rest => (n, l) :: numberFrom (n + 1) rest

/-- Index one past the first line whose running balance is at or below zero
(the whole list if the balance stays positive throughout). -/
def stopIdx (bal : Int) (ls : List (List Char)) : Nat :=
  match firstIdxG (fun b => b ≤ 0) (runBal bal ls) with
  | none => ls.length
  | some m => m + 1

/-- Payloads of the FUNCTION: lines of a store, as load_documentation reads them. -/
def storeNamesOf (storeLines : List (List Char)) : List (List Char) :=
  storeLines.filterMap (fun raw =>
    let l := trim_whitespace raw
    if kwFUNCTION.isPrefixOf l then some ((l.drop 10).take 127) else none)

/-- Payloads of the FILE: lines of a store, as load_documentation reads them. -/
def storeFilesOf (storeLines : List (List Char)) : List (List Char) :=
  storeLines.filterMap (fun raw =>
    let l := trim_whitespace raw
    if kwFILE.isPrefixOf l then some ((l.drop 6).take 255) else none)

/-- Replace the function at position (i, j) of the catalog. -/
def setFnAt (files : List SourceFileT) (i j : Nat) (fn : FunctionT) : List SourceFileT :=
  modifyIdx files i (fun fl => { fl with functions := setIdx fl.functions j fn })


/-- The write performed by one store block on the matched function record. -/
def applyBlock (fn : FunctionT) (old : FunctionT) : FunctionT :=
  { old with
    description := fn.description
    parameters := if fn.parameters = [] then old.parameters else fn.parameters
    return_value := if fn.return_value = [] then old.return_value else fn.return_value
    exampl := if fn.exampl = [] then old.exampl else fn.exampl
    notes := if fn.notes = [] then old.notes else fn.notes
    is_documented := true }

/-- The record as a fresh scan would deliver it: documentation cleared. -/
def undoc (fn : FunctionT) : FunctionT :=
  { fn with
    description := []
    parameters := []
    return_value := []
    exampl := []
    notes := []
    is_documented := false }

/-- Well-formedness of one documented record for the round trip: documented,
scanner-shaped name and filename, non-empty description, all fields within
the C buffer bounds and free of trailing whitespace. -/
abbrev fieldOK (fn : FunctionT) : Prop :=
  fn.is_documented = true ∧
  fn.name ≠ [] ∧ fn.name.length ≤ 127 ∧ rstrip fn.name = fn.name ∧
  fn.filename ≠ [] ∧ fn.filename.length ≤ 255 ∧ rstrip fn.filename = fn.filename ∧
  fn.description ≠ [] ∧ fn.description.length ≤ 511 ∧
    rstrip fn.description = fn.description ∧
  fn.parameters.length ≤ 511 ∧ rstrip fn.parameters = fn.parameters ∧
  fn.return_value.length ≤ 511 ∧ rstrip fn.return_value = fn.return_value ∧
  fn.exampl.length ≤ 511 ∧ rstrip fn.exampl = fn.exampl ∧
  fn.notes.length ≤ 511 ∧ rstrip fn.notes = fn.notes

/-- Documented functions of one file with their catalog positions: file
index i, function index counted from j. -/
def triplesFns (i : Nat) : Nat → List FunctionT → List (Nat × Nat × FunctionT)
  | _, [] => []
  | j, fn :: rest =>
    (if fn.is_documented then [(i, j, fn)] else []) ++ triplesFns i (j + 1) rest

/-- Documented functions of the whole catalog with their positions, files
counted from i. -/
def triplesCat : Nat → List SourceFileT → List (Nat × Nat × FunctionT)
  | _, [] => []
  | i, fl :: rest => triplesFns i 0 fl.functions ++ triplesCat (i + 1) rest

/-- Constraints on the five documentation fields of a record for the round
trip: non-empty description and every field within its C buffer bound and
free of trailing whitespace. -/
abbrev docOK (fn : FunctionT) : Prop :=
  fn.description ≠ [] ∧ fn.description.length ≤ 511 ∧
    rstrip fn.description = fn.description ∧
  fn.parameters.length ≤ 511 ∧ rstrip fn.parameters = fn.parameters ∧
  fn.return_value.length ≤ 511 ∧ rstrip fn.return_value = fn.return_value ∧
  fn.exampl.length ≤ 511 ∧ rstrip fn.exampl = fn.exampl ∧
  fn.notes.length ≤ 511 ∧ rstrip fn.notes = fn.notes

/-- One-file project listing used in the concrete round-trip checks. -/
def listingW : List (List Char × List (List Char)) :=
  [("a.c".data, ["int f()".data])]

/-- Its scanned catalog with the single function documented through a
non-empty description. -/
def catW : List SourceFileT :=
  updFn (scan_project_files listingW) 0 0
    (fun fn => { fn with is_documented := true, description := "d".data })

/-- The documented record of catW, written out. -/
def fnW : FunctionT :=
  { name := "f".data, signature := "int f()".data, filename := "a.c".data,
    line_number := 1, description := "d".data, parameters := [],
    return_value := [], exampl := [], notes := [], is_documented := true,
    return_type := "int".data }

/-- The same catalog with the flag set but the description left empty. -/
def catC : List SourceFileT :=
  updFn (scan_project_files listingW) 0 0
    (fun fn => { fn with is_documented := true })

/-! Helper lemmas about the character-level utilities. -/

theorem rstrip_cons (a : Char) (t : List Char) :
    rstrip (a :: t) = match rstrip t with
      | [] => if isSpaceC a then [] else [a]
      | b :: r => a :: b :: r := rfl

theorem rstrip_prefix (l : List Char) : rstrip l <+: l := by
  induction l with
  | nil => exact ⟨[], rfl⟩
  | cons a t ih =>
    rw [rstrip_cons]
    cases h : rstrip t with
    | nil =>
      by_cases hs : isSpaceC a
      · simp [hs]
      · simp only [hs]
        exact ⟨t, by simp⟩
    | cons b r =>
      rw [h] at ih
      obtain ⟨s, hs⟩ := ih
      exact ⟨s, by rw [← hs]; rfl⟩

theorem rstrip_append (p x : List Char) (hx : x ≠ []) (hfix : rstrip x = x) :
    rstrip (p ++ x) = p ++ x := by
  induction p with
  | nil => simpa using hfix
  | cons a q ih =>
    rw [List.cons_append, rstrip_cons, ih]
    cases hq : q ++ x with
    | nil => exact absurd (List.append_eq_nil.mp hq).2 hx
    | cons b r => rfl

theorem rstrip_eq_nil_iff (l : List Char) : rstrip l = [] ↔ l.all isSpaceC = true := by
  induction l with
  | nil => simp [rstrip]
  | cons a t ih =>
    rw [rstrip_cons, List.all_cons]
    cases h : rstrip t with
    | nil =>
      have ht : t.all isSpaceC = true := by rw [← ih, h]
      by_cases hs : isSpaceC a <;> simp [hs, ht]
    | cons b r =>
      have ht : t.all isSpaceC = false := by
        cases hh : t.all isSpaceC with
        | false => rfl
        | true => rw [← ih, h] at hh; cases hh
      simp [ht]

theorem trim_eq_nil_iff (l : List Char) : trim_whitespace l = [] ↔ l = [] := by
  unfold trim_whitespace
  by_cases h : l.all isSpaceC = true
  · simp [h]
  · have h1 : rstrip l ≠ [] := by rw [Ne, rstrip_eq_nil_iff]; exact h
    have h2 : l ≠ [] := by rintro rfl; exact h rfl
    simp [h, h1, h2]

theorem trim_prefix (l : List Char) : trim_whitespace l <+: l := by
  unfold trim_whitespace
  by_cases h : l.all isSpaceC = true
  · simp [h]
  · simp only [h]
    exact rstrip_prefix l

theorem trim_cons_shape (a : Char) (t : List Char) :
    trim_whitespace (a :: t) = [] ∨ ∃ r, trim_whitespace (a :: t) = a :: r := by
  unfold trim_whitespace
  by_cases h : (a :: t).all isSpaceC = true
  · exact Or.inr ⟨t, by simp [h]⟩
  · rw [if_neg (by simp [h]), rstrip_cons]
    cases rstrip t with
    | nil =>
      by_cases hs : isSpaceC a
      · left; simp [hs]
      · right; exact ⟨[], by simp [hs]⟩
    | cons b r => exact Or.inr ⟨b :: r, rfl⟩

theorem trim_marker_append (a : Char) (q x : List Char) (ha : isSpaceC a = false)
    (hx : x ≠ []) (hfix : rstrip x = x) :
    trim_whitespace ((a :: q) ++ x) = (a :: q) ++ x := by
  unfold trim_whitespace
  rw [if_neg (by simp [List.all_cons, ha]), rstrip_append _ _ hx hfix]

theorem isPrefixOf_append_self (p x : List Char) : p.isPrefixOf (p ++ x) = true := by
  induction p with
  | nil => simp
  | cons a q ih => simp [List.isPrefixOf_cons₂, ih]

theorem isPrefixOf_false_of_head {c c' : Char} {q r s : List Char}
    (h : r <+: (c :: s)) (hne : (c' == c) = false) :
    (c' :: q).isPrefixOf r = false := by
  cases r with
  | nil => rfl
  | cons b rs =>
    obtain ⟨t2, ht⟩ := h
    rw [List.cons_append] at ht
    obtain ⟨rfl, -⟩ := List.cons.inj ht
    simp [List.isPrefixOf_cons₂, hne]

theorem isPrefixOf_false_of_second {c d d' : Char} {q r s : List Char}
    (h : r <+: (c :: d :: s)) (hne : (d' == d) = false) :
    (c :: d' :: q).isPrefixOf r = false := by
  cases r with
  | nil => rfl
  | cons b rs =>
    obtain ⟨t2, ht⟩ := h
    rw [List.cons_append] at ht
    obtain ⟨rfl, ht2⟩ := List.cons.inj ht
    cases rs with
    | nil => simp [List.isPrefixOf_cons₂]
    | cons e rs2 =>
      rw [List.cons_append] at ht2
      obtain ⟨rfl, -⟩ := List.cons.inj ht2
      simp [List.isPrefixOf_cons₂, hne]

theorem ne_cons_of_prefix_head {c c₀ : Char} {s q r : List Char}
    (h : r <+: (c :: s)) (hne : c ≠ c₀) : r ≠ c₀ :: q := by
  cases r with
  | nil => simp
  | cons b rs =>
    obtain ⟨t2, ht⟩ := h
    rw [List.cons_append] at ht
    obtain ⟨rfl, -⟩ := List.cons.inj ht
    intro hc
    exact hne (List.cons.inj hc).1

theorem backScan_le (l : List Char) (i : Nat) : backScan l i ≤ i := by
  induction i with
  | zero => exact Nat.le_refl 0
  | succ j ih =>
    unfold backScan
    by_cases h : isIdentC (l.getD (j + 1) ' ') = true
    · simp only [h, if_true]
      exact Nat.le_succ_of_le ih
    · simp only [h, if_false]
      exact Nat.le_refl _

theorem backScan_eq_zero (l : List Char) (i : Nat)
    (h : ∀ k, 1 ≤ k → k ≤ i → isIdentC (l.getD k ' ') = true) : backScan l i = 0 := by
  induction i with
  | zero => rfl
  | succ j ih =>
    unfold backScan
    rw [h (j + 1) (Nat.succ_le_succ (Nat.zero_le j)) (Nat.le_refl _)]
    simp only [if_true]
    exact ih (fun k h1 h2 => h k h1 (Nat.le_succ_of_le h2))

theorem firstIdxG_append_first {α : Type} (p : α → Bool) (l₁ : List α) (b : α) (l₂ : List α)
    (h : ∀ a ∈ l₁, p a = false) (hb : p b = true) :
    firstIdxG p (l₁ ++ b :: l₂) = some l₁.length := by
  induction l₁ with
  | nil => simp [firstIdxG, hb]
  | cons a t ih =>
    have ha : p a = false := h a (List.mem_cons_self a t)
    simp [firstIdxG, ha, ih (fun x hx => h x (List.mem_cons_of_mem a hx))]

theorem firstIdxG_lt_length {α : Type} (p : α → Bool) (l : List α) (i : Nat)
    (h : firstIdxG p l = some i) : i < l.length := by
  induction l generalizing i with
  | nil => simp [firstIdxG] at h
  | cons a t ih =>
    by_cases hp : p a = true
    · simp [firstIdxG, hp] at h
      simp only [List.length_cons]
      omega
    · simp [firstIdxG, hp] at h
      obtain ⟨j, hj, rfl⟩ := h
      have := ih j hj
      simp only [List.length_cons]
      omega

/-! Index-update lemmas. -/

theorem length_modifyIdx {α : Type} (l : List α) (n : Nat) (g : α → α) :
    (modifyIdx l n g).length = l.length := by
  induction l generalizing n with
  | nil => rfl
  | cons a t ih =>
    cases n with
    | zero => rfl
    | succ m => simp [modifyIdx, ih]

theorem get?_modifyIdx_self {α : Type} (l : List α) (n : Nat) (g : α → α) :
    (modifyIdx l n g).get? n = (l.get? n).map g := by
  induction l generalizing n with
  | nil => rfl
  | cons a t ih =>
    cases n with
    | zero => rfl
    | succ m => simpa [modifyIdx] using ih m

theorem get?_modifyIdx_ne {α : Type} (l : List α) (n m : Nat) (g : α → α) (h : n ≠ m) :
    (modifyIdx l n g).get? m = l.get? m := by
  induction l generalizing n m with
  | nil => rfl
  | cons a t ih =>
    cases n with
    | zero =>
      cases m with
      | zero => exact absurd rfl h
      | succ k => rfl
    | succ n' =>
      cases m with
      | zero => rfl
      | succ k => simpa [modifyIdx] using ih n' k (fun hc => h (by rw [hc]))

theorem map_modifyIdx_invariant {α β : Type} (l : List α) (n : Nat) (g : α → α) (f : α → β)
    (h : ∀ a, f (g a) = f a) : (modifyIdx l n g).map f = l.map f := by
  induction l generalizing n with
  | nil => rfl
  | cons a t ih =>
    cases n with
    | zero => simp [modifyIdx, h]
    | succ m => simp [modifyIdx, ih]

theorem modifyIdx_modifyIdx_self {α : Type} (l : List α) (n : Nat) (g1 g2 : α → α) :
    modifyIdx (modifyIdx l n g1) n g2 = modifyIdx l n (fun a => g2 (g1 a)) := by
  induction l generalizing n with
  | nil => rfl
  | cons a t ih =>
    cases n with
    | zero => rfl
    | succ m => simp [modifyIdx, ih]

theorem catFrame_updFn (files : List SourceFileT) (i j : Nat) (g : FunctionT → FunctionT)
    (h : ∀ fn, fnFrame (g fn) = fnFrame fn) :
    catFrame (updFn files i j g) = catFrame files := by
  unfold catFrame updFn
  apply map_modifyIdx_invariant
  intro fl
  unfold fileFrame
  simp [map_modifyIdx_invariant _ _ _ _ h]

theorem docFlags_updFn (files : List SourceFileT) (i j : Nat) (g : FunctionT → FunctionT)
    (h : ∀ fn, (g fn).is_documented = fn.is_documented) :
    docFlags (updFn files i j g) = docFlags files := by
  unfold docFlags updFn
  apply map_modifyIdx_invariant
  intro fl
  simp [map_modifyIdx_invariant _ _ _ _ h]

theorem load_step_frame (st : LoadState) (raw : List Char) :
    catFrame (load_step st raw).files = catFrame st.files := by
  simp only [load_step]
  split
  · rfl
  · split
    · rfl
    · split
      · split
        · rfl
        · split
          · exact catFrame_updFn _ _ _ _ (fun fn => rfl)
          · split
            · exact catFrame_updFn _ _ _ _ (fun fn => rfl)
            · split
              · exact catFrame_updFn _ _ _ _ (fun fn => rfl)
              · split
                · exact catFrame_updFn _ _ _ _ (fun fn => rfl)
                · split
                  · exact catFrame_updFn _ _ _ _ (fun fn => rfl)
                  · split
                    · rfl
                    · rfl
      · rfl

theorem loadGo_frame (lines : List (List Char)) (st : LoadState) :
    catFrame (List.foldl load_step st lines).files = catFrame st.files := by
  induction lines generalizing st with
  | nil => rfl
  | cons l rest ih => rw [List.foldl_cons, ih, load_step_frame]

theorem load_frame (store : List (List Char)) (files : List SourceFileT) :
    catFrame (load_documentation store files) = catFrame files :=
  loadGo_frame store _

theorem load_length (store : List (List Char)) (files : List SourceFileT) :
    (load_documentation store files).length = files.length := by
  have h := load_frame store files
  unfold catFrame at h
  calc (load_documentation store files).length
      = ((load_documentation store files).map fileFrame).length := by rw [List.length_map]
    _ = (files.map fileFrame).length := by rw [h]
    _ = files.length := by rw [List.length_map]

/-! Line classifier facts. -/

theorem is_function_line_nil (fname : List Char) : is_function_line [] fname = false := rfl

theorem is_function_line_head_ws (a : Char) (r fname : List Char) (ha : a = ' ' ∨ a = '\t') :
    is_function_line (a :: r) fname = false := by
  have key : ∀ b1 b2 : Bool, (a :: r).contains '(' = b1 → (a :: r).contains ')' = b2 →
      is_function_line (a :: r) fname = false := by
    intro b1 b2 h1 h2
    rcases ha with rfl | rfl <;> cases b1 <;> cases b2 <;>
      (unfold is_function_line; rw [h1, h2]) <;> rfl
  exact key _ _ rfl rfl

/-- C3: a line that is indented in the source file (its raw text begins with
a space or a tab) is rejected by the classifier after the trimming done by
parse_c_file, and the scanning loop records no function for it. -/
theorem C3_theorem (raw fname : List Char) (rest : List (List Char)) (ln : Nat)
    (acc : List FunctionT)
    (h : raw.head? = some ' ' ∨ raw.head? = some '\t') :
    is_function_line (trim_whitespace raw) fname = false ∧
    parse_c_lines fname (raw :: rest) ln acc =
      (if acc.length ≥ 100 then acc else parse_c_lines fname rest (ln + 1) acc) := by
  obtain ⟨a, t, rfl, ha⟩ : ∃ a t, raw = a :: t ∧ (a = ' ' ∨ a = '\t') := by
    cases raw with
    | nil => rcases h with h | h <;> simp at h
    | cons a t =>
      rcases h with h | h <;> simp at h <;> exact ⟨a, t, rfl, by simp [h]⟩
  have hfalse : is_function_line (trim_whitespace (a :: t)) fname = false := by
    rcases trim_cons_shape a t with hL | ⟨r, hL⟩
    · rw [hL]; exact is_function_line_nil fname
    · rw [hL]; exact is_function_line_head_ws a r fname ha
  refine ⟨hfalse, ?_⟩
  by_cases hacc : acc.length ≥ 100
  · unfold parse_c_lines
    simp [hacc]
  · unfold parse_c_lines
    simp [hacc, hfalse]
    cases rest <;> rfl

/-- Closed instance of C3_theorem at an indented line of a .c file. -/
theorem C3_witness :
    (("  int f()".data).head? = some ' ' ∨ ("  int f()".data).head? = some '\t') ∧
    (is_function_line (trim_whitespace ("  int f()".data)) ("a.c".data) = false ∧
     parse_c_lines ("a.c".data) (("  int f()".data) :: []) 0 [] =
       (if ([] : List FunctionT).length ≥ 100 then [] else parse_c_lines ("a.c".data) [] 1 [])) :=
  ⟨Or.inl (by decide), C3_theorem _ _ _ _ _ (Or.inl (by decide))⟩

/-! Signature extractor claims. -/

/-- C4 counterexample: on "char *get_name(const char *id)" the star before
the name is deleted by the NUL write, so the return type comes back as
"char", not "char *" or a whitespace-trimmed variant of it. -/
theorem C4_counterexample :
    extract_return_type ("char *get_name(const char *id)".data) = "char".data ∧
    extract_return_type ("char *get_name(const char *id)".data) ≠ "char *".data ∧
    extract_return_type ("char *get_name(const char *id)".data) ≠ " char *".data := by
  refine ⟨by decide, by decide, by decide⟩

/-- C4 amended: the name is extracted as "get_name"; the single character
immediately before the name (here the pointer star) is dropped entirely, so
the return type is "char"; with a second star the remaining one does stay in
the return type. -/
theorem C4_amended :
    extract_function_name ("char *get_name(const char *id)".data) = some ("get_name".data) ∧
    extract_return_type ("char *get_name(const char *id)".data) = "char".data ∧
    extract_return_type ("char **get_name(const char *id)".data) = "char *".data := by
  refine ⟨by decide, by decide, by decide⟩

/-- C10 counterexample: "f(x)" has an identifier character in position 0
running contiguously up to the first parenthesis, yet extract_function_name
fails instead of succeeding. -/
theorem C10_counterexample :
    isIdentC 'f' = true ∧ extract_function_name ("f(x)".data) = none := by
  refine ⟨by decide, by decide⟩

/-- C10 amended: when the identifier before the first parenthesis starts at
position 0 and has at least two characters, extract_function_name succeeds
but drops the first character of the identifier. -/
theorem C10_amended (nm rest : List Char) (h2 : 2 ≤ nm.length) (h128 : nm.length ≤ 128)
    (hid : ∀ c ∈ nm, isIdentC c = true) :
    extract_function_name (nm ++ '(' :: rest) = some (nm.drop 1) := by
  obtain ⟨a, nm', rfl⟩ : ∃ a nm', nm = a :: nm' := by
    cases nm with
    | nil => simp at h2
    | cons a nm' => exact ⟨a, nm', rfl⟩
  have h2' : 1 ≤ nm'.length := by
    simp only [List.length_cons] at h2
    omega
  have h128' : nm'.length ≤ 127 := by
    simp only [List.length_cons] at h128
    omega
  have hfi : firstIdxG (fun c => c == '(') ((a :: nm') ++ '(' :: rest) =
      some (nm'.length + 1) := by
    have := firstIdxG_append_first (fun c => c == '(') (a :: nm') '(' rest
      (by
        intro x hx
        have h1 := hid x hx
        by_cases h : x = '('
        · rw [h] at h1; exact absurd h1 (by decide)
        · simp [h])
      (by simp)
    simpa using this
  have hbs : backScan ((a :: nm') ++ '(' :: rest) nm'.length = 0 := by
    apply backScan_eq_zero
    intro k h1 hk
    have hklt : k < (a :: nm').length := by simp only [List.length_cons]; omega
    have hg : ((a :: nm') ++ '(' :: rest).get? k = (a :: nm').get? k :=
      List.get?_append hklt
    simp only [List.getD]
    rw [hg]
    cases hx : (a :: nm').get? k with
    | none =>
      rw [List.get?_eq_none] at hx
      simp only [List.length_cons] at hx
      omega
    | some c =>
      simp only [Option.getD_some]
      exact hid c (List.get?_mem hx)
  simp only [extract_function_name, hfi, List.length_cons]
  have hsub : nm'.length + 1 - 1 = nm'.length := by omega
  rw [hsub, hbs]
  rw [if_neg (show ¬(nm'.length + 1 = 0) by omega)]
  rw [if_neg (show ¬(0 + 1 ≥ nm'.length + 1) by omega)]
  rw [if_neg (show ¬(nm'.length + 1 - (0 + 1) ≥ 128) by omega)]
  simp only [List.cons_append, List.drop_succ_cons, List.drop_zero]
  have hsub2 : nm'.length + 1 - (0 + 1) = nm'.length := by omega
  rw [hsub2, List.take_left' rfl]
  rw [if_pos (show nm'.length > 0 by omega)]

/-- Closed instance of C10_amended at the signature "main(void)", which
yields the name "ain". -/
theorem C10_witness :
    (2 ≤ ("main".data).length ∧ ("main".data).length ≤ 128 ∧
      (∀ c ∈ "main".data, isIdentC c = true)) ∧
    extract_function_name ("main".data ++ '(' :: "void)".data) = some (("main".data).drop 1) ∧
    "main".data ++ '(' :: "void)".data = "main(void)".data ∧
    ("main".data).drop 1 = "ain".data :=
  ⟨⟨by decide, by decide, by decide⟩,
   C10_amended _ _ (by decide) (by decide) (by decide), by decide, by decide⟩

/-- C7 counterexample: on "  f(x)" the text left after deleting the name and
the parenthesised part is two blanks, which ordinary whitespace trimming
empties, yet the function returns the single blank " " instead of the
documented default "int", because its trimming never removes leading
whitespace. -/
theorem C7_counterexample :
    extract_return_type ("  f(x)".data) = " ".data ∧
    extract_return_type ("  f(x)".data) ≠ "int".data := by
  refine ⟨by decide, by decide⟩

/-- C7 amended: with no parenthesis in the truncated buffer the result is
"void"; and whenever the parenthesis exists, the name cut succeeds and the
remainder is handed to the trim, that remainder can never be empty after the
trim (the code never removes leading whitespace), so the "int" default
branch is unreachable and the result is the trimmed remainder itself. -/
theorem C7_amended :
    (∀ sig : List Char, firstIdxG (fun c => c == '(') (sig.take 127) = none →
        extract_return_type sig = "void".data) ∧
    (∀ (sig : List Char) (p : Nat),
        firstIdxG (fun c => c == '(') (sig.take 127) = some p → p ≠ 0 →
        backScan (sig.take 127) (p - 1) ≠ 0 →
        (trim_whitespace ((sig.take 127).take (backScan (sig.take 127) (p - 1)))).length ≠ 0 ∧
        extract_return_type sig =
          (trim_whitespace ((sig.take 127).take (backScan (sig.take 127) (p - 1)))).take 127) := by
  constructor
  · intro sig h
    simp only [extract_return_type, h]
  · intro sig p hp hp0 hbs
    have hle : backScan (sig.take 127) (p - 1) ≤ p - 1 := backScan_le _ _
    have hlt : p < (sig.take 127).length := firstIdxG_lt_length _ _ _ hp
    have hlen : ((sig.take 127).take (backScan (sig.take 127) (p - 1))).length =
        backScan (sig.take 127) (p - 1) := by
      rw [List.length_take]
      omega
    have hne : (sig.take 127).take (backScan (sig.take 127) (p - 1)) ≠ [] := by
      intro hempty
      rw [hempty] at hlen
      simp only [List.length_nil] at hlen
      exact hbs hlen.symm
    have htne : (trim_whitespace
        ((sig.take 127).take (backScan (sig.take 127) (p - 1)))).length ≠ 0 := by
      intro h0
      rw [List.length_eq_zero, trim_eq_nil_iff] at h0
      exact hne h0
    refine ⟨htne, ?_⟩
    simp only [extract_return_type, hp]
    rw [if_neg hp0, if_neg hbs, if_neg htne]

/-- Closed instance of C7_amended at the signature "x f(y)". -/
theorem C7_witness :
    (firstIdxG (fun c => c == '(') (("x f(y)".data).take 127) = some 3 ∧ (3 : Nat) ≠ 0 ∧
      backScan (("x f(y)".data).take 127) (3 - 1) ≠ 0) ∧
    ((trim_whitespace ((("x f(y)".data).take 127).take
        (backScan (("x f(y)".data).take 127) (3 - 1)))).length ≠ 0 ∧
     extract_return_type ("x f(y)".data) =
       (trim_whitespace ((("x f(y)".data).take 127).take
         (backScan (("x f(y)".data).take 127) (3 - 1)))).take 127) :=
  ⟨⟨by decide, by decide, by decide⟩, C7_amended.2 _ 3 (by decide) (by decide) (by decide)⟩

/-! Function source extractor claims. -/

theorem firstIdxG_cons_pos {α : Type} (p : α → Bool) (a : α) (t : List α) (h : p a = true) :
    firstIdxG p (a :: t) = some 0 := by
  rw [show firstIdxG p (a :: t) =
    (if p a then some 0 else (firstIdxG p t).map (· + 1)) from rfl, h]
  simp

theorem firstIdxG_cons_neg {α : Type} (p : α → Bool) (a : α) (t : List α) (h : p a = false) :
    firstIdxG p (a :: t) = (firstIdxG p t).map (· + 1) := by
  rw [show firstIdxG p (a :: t) =
    (if p a then some 0 else (firstIdxG p t).map (· + 1)) from rfl, h]
  simp

theorem pfs_body_eq (bal : Int) (ls : List (List Char)) (n : Nat) :
    pfs_body bal ls n = numberFrom n (ls.take (stopIdx bal ls)) := by
  induction ls generalizing bal n with
  | nil => rfl
  | cons l rest ih =>
    unfold pfs_body
    have hrb : runBal bal (l :: rest) =
        (bal + braceDelta l) :: runBal (bal + braceDelta l) rest := rfl
    by_cases h : bal + braceDelta l ≤ 0
    · rw [if_pos h]
      have hstop : stopIdx bal (l :: rest) = 1 := by
        unfold stopIdx
        rw [hrb, firstIdxG_cons_pos _ _ _ (by simp [h])]
      rw [hstop]
      rfl
    · rw [if_neg h]
      have hstop : stopIdx bal (l :: rest) = stopIdx (bal + braceDelta l) rest + 1 := by
        unfold stopIdx
        rw [hrb, firstIdxG_cons_neg _ _ _ (by simp [h])]
        cases firstIdxG (fun b => b ≤ 0) (runBal (bal + braceDelta l) rest) with
        | none => simp
        | some m => simp
      rw [hstop, ih]
      rfl

/-- C5 counterexample: scanning from line 1 of a .c file whose second line
leaves the running brace balance at zero without the balance ever having been
positive, the extractor still stops there: it emits only lines 1 and 2 and
never reaches the actual body in lines 3 and 4. -/
theorem C5_counterexample :
    print_function_source ("a.c".data) 1
      ["int f()".data, "int x;".data, "\x7b".data, "\x7d".data] =
      (true, [(1, "int f()".data), (2, "int x;".data)]) ∧
    braceDelta ("int f()".data) = 0 ∧
    braceDelta ("int f()".data) + braceDelta ("int x;".data) = 0 := by
  refine ⟨by decide, by decide, by decide⟩

/-- C5 amended: for a non-header starting line the extractor emits the
starting line unconditionally (never stopping there, whatever its own brace
balance), and then stops exactly at the first subsequent line whose running
balance is at or below zero, whether or not the balance was ever positive;
stopIdx expresses that first-stop position. -/
theorem C5_amended (fname : List Char) (target : Nat) (fileLines : List (List Char))
    (h1 : 1 ≤ target) (h2 : target ≤ fileLines.length)
    (hnh : (ends_with_2 fname '.' 'h' &&
        (trim_whitespace (fileLines.getD (target - 1) [])).length > 0 &&
        ((trim_whitespace (fileLines.getD (target - 1) [])).getLastD 'x' == ';')) = false) :
    print_function_source fname target fileLines =
      (true, (target, fileLines.getD (target - 1) []) ::
        numberFrom (target + 1)
          ((fileLines.drop target).take
            (stopIdx (braceDelta (fileLines.getD (target - 1) []))
              (fileLines.drop target)))) := by
  simp only [print_function_source]
  rw [if_pos ⟨h1, h2⟩, hnh]
  rw [if_neg (by simp)]
  rw [pfs_body_eq]

/-- Closed instance of C5_amended at a two-line .c function. -/
theorem C5_witness :
    ((1 : Nat) ≤ 1 ∧ (1 : Nat) ≤ (["int f() \x7b".data, "\x7d".data] : List (List Char)).length ∧
     (ends_with_2 ("a.c".data) '.' 'h' &&
        (trim_whitespace ((["int f() \x7b".data, "\x7d".data] : List (List Char)).getD 0 [])).length > 0 &&
        ((trim_whitespace ((["int f() \x7b".data, "\x7d".data] : List (List Char)).getD 0 [])).getLastD 'x'
          == ';')) = false) ∧
    print_function_source ("a.c".data) 1 ["int f() \x7b".data, "\x7d".data] =
      (true, (1, (["int f() \x7b".data, "\x7d".data] : List (List Char)).getD 0 []) ::
        numberFrom 2
          (((["int f() \x7b".data, "\x7d".data] : List (List Char)).drop 1).take
            (stopIdx (braceDelta ((["int f() \x7b".data, "\x7d".data] : List (List Char)).getD 0 []))
              ((["int f() \x7b".data, "\x7d".data] : List (List Char)).drop 1)))) :=
  ⟨⟨by decide, by decide, by decide⟩, C5_amended _ _ _ (by decide) (by decide) (by decide)⟩

/-! Documentation flag claims. -/

theorem load_step_flags (st : LoadState) (raw : List Char)
    (h : kwDESCRIPTION.isPrefixOf (trim_whitespace raw) = false) :
    docFlags (load_step st raw).files = docFlags st.files := by
  simp only [load_step]
  split
  · rfl
  · split
    · rfl
    · split
      · split
        · rfl
        · split
          · rename_i hcond
            rw [h] at hcond
            cases hcond
          · split
            · exact docFlags_updFn _ _ _ _ (fun fn => rfl)
            · split
              · exact docFlags_updFn _ _ _ _ (fun fn => rfl)
              · split
                · exact docFlags_updFn _ _ _ _ (fun fn => rfl)
                · split
                  · exact docFlags_updFn _ _ _ _ (fun fn => rfl)
                  · split
                    · rfl
                    · rfl
      · rfl

/-- C1 counterexample: running the edit flow over a freshly scanned function
with all five answers left empty sets is_documented even though no non-empty
description was ever set, contradicting the claimed iff and the claimed
description-only trigger. -/
theorem C1_counterexample :
    ((parse_c_file ("a.c".data) ["int f()".data]).headD fnDefault).is_documented = false ∧
    ((parse_c_file ("a.c".data) ["int f()".data]).headD fnDefault).description = [] ∧
    (edit_function_documentation ((parse_c_file ("a.c".data) ["int f()".data]).headD fnDefault)
        ⟨[], [], [], [], []⟩).is_documented = true ∧
    (edit_function_documentation ((parse_c_file ("a.c".data) ["int f()".data]).headD fnDefault)
        ⟨[], [], [], [], []⟩).description = [] := by
  refine ⟨by decide, by decide, by decide, by decide⟩

/-- C1 amended: the edit flow sets is_documented unconditionally on
completion, whatever was typed; during a load, a store line that does not
carry the DESCRIPTION marker never changes any is_documented flag. -/
theorem C1_amended :
    (∀ (fn : FunctionT) (inp : EditInputs),
        (edit_function_documentation fn inp).is_documented = true) ∧
    (∀ (st : LoadState) (raw : List Char),
        kwDESCRIPTION.isPrefixOf (trim_whitespace raw) = false →
        docFlags (load_step st raw).files = docFlags st.files) := by
  constructor
  · intro fn inp
    rfl
  · intro st raw h
    exact load_step_flags st raw h

/-- Closed instance of C1_amended: an edit with only a notes answer, and a
NOTES store line stepping the loader. -/
theorem C1_witness :
    (edit_function_documentation ((parse_c_file ("a.c".data) ["int f()".data]).headD fnDefault)
        ⟨[], [], [], [], "n".data⟩).is_documented = true ∧
    (kwDESCRIPTION.isPrefixOf (trim_whitespace ("NOTES: n".data)) = false ∧
     docFlags (load_step
        ⟨"f".data, "a.c".data, scan_project_files [("a.c".data, ["int f()".data])]⟩
        ("NOTES: n".data)).files =
       docFlags (scan_project_files [("a.c".data, ["int f()".data])])) :=
  ⟨C1_amended.1 _ _, by decide, C1_amended.2 _ _ (by decide)⟩

/-! Frame claim. -/

/-- C9: loading the store writes only the documentation fields and the
is_documented flag: the catalog frame (each function record restricted to
name, signature, filename, line number and return type, each file record
restricted to its two path fields and its function list in order, and the
file list itself in order, whence also all counts) is unchanged by
load_documentation on every store and every catalog. -/
theorem C9_theorem (storeLines : List (List Char)) (files : List SourceFileT) :
    catFrame (load_documentation storeLines files) = catFrame files :=
  load_frame storeLines files

/-! Startup claim. -/

/-- C8 counterexample: a directory containing the eligible source file a.c
whose single line yields no recognized functions makes the program exit with
code 1 even though the directory change succeeded and one eligible file was
found, so "exit 1 exactly on chdir failure or zero eligible files" fails. -/
theorem C8_counterexample :
    main_startup none true [("a.c".data, ["int x;".data])] [] = Except.error 1 ∧
    eligibleCount [("a.c".data, ["int x;".data])] = 1 := by
  refine ⟨by rfl, by decide⟩

/-- C8 amended: the startup exits with code 1 exactly when a directory
argument is present and the chdir fails, or when the scanned catalog is empty
(no eligible file produced at least one recognized function); otherwise it
enters the navigation loop with the non-empty loaded catalog. -/
theorem C8_amended (arg_dir : Option (List Char)) (chdir_ok : Bool)
    (listing : List (List Char × List (List Char))) (store : List (List Char)) :
    (main_startup arg_dir chdir_ok listing store = Except.error 1 ↔
      (arg_dir.isSome = true ∧ chdir_ok = false) ∨ scan_project_files listing = []) ∧
    (∀ files, main_startup arg_dir chdir_ok listing store = Except.ok files →
      files = load_documentation store (scan_project_files listing) ∧ files ≠ []) := by
  have hlen : (load_documentation store (scan_project_files listing)).length =
      (scan_project_files listing).length := load_length _ _
  unfold main_startup
  by_cases h1 : (arg_dir.isSome && !chdir_ok) = true
  · rw [if_pos h1]
    rw [Bool.and_eq_true, Bool.not_eq_true'] at h1
    constructor
    · simp [h1]
    · intro files hfiles
      cases hfiles
  · rw [if_neg h1]
    rw [Bool.and_eq_true] at h1
    by_cases h2 : (load_documentation store (scan_project_files listing)).length = 0
    · rw [if_pos h2]
      have hscan : scan_project_files listing = [] := by
        rw [hlen] at h2
        exact List.length_eq_zero.mp h2
      constructor
      · simp [hscan]
      · intro files hfiles
        cases hfiles
    · rw [if_neg h2]
      constructor
      · constructor
        · intro hcontr
          cases hcontr
        · intro hor
          rcases hor with ⟨ha, hb⟩ | hor
          · exact absurd ⟨ha, by rw [hb]; rfl⟩ h1
          · rw [hor] at hlen h2
            rw [List.length_nil] at hlen
            exact absurd hlen h2
      · intro files hfiles
        refine ⟨?_, ?_⟩
        · cases hfiles
          rfl
        · intro hnil
          apply h2
          cases hfiles
          rw [hnil]
          rfl

/-! Store key lemmas for the load protocol. -/

theorem load_step_kwFUNCTION (st : LoadState) (raw : List Char)
    (h : kwFUNCTION.isPrefixOf (trim_whitespace raw) = true) :
    load_step st raw =
      { st with current_func_name := ((trim_whitespace raw).drop 10).take 127 } := by
  simp only [load_step]
  rw [if_pos h]

theorem load_step_kwFILE (st : LoadState) (raw : List Char)
    (h1 : kwFUNCTION.isPrefixOf (trim_whitespace raw) = false)
    (h2 : kwFILE.isPrefixOf (trim_whitespace raw) = true) :
    load_step st raw =
      { st with current_filename := ((trim_whitespace raw).drop 6).take 255 } := by
  simp only [load_step]
  rw [h1, if_neg Bool.false_ne_true, if_pos h2]

theorem load_step_nokeys (st : LoadState) (raw : List Char)
    (h1 : kwFUNCTION.isPrefixOf (trim_whitespace raw) = false)
    (h2 : kwFILE.isPrefixOf (trim_whitespace raw) = false)
    (h3 : (st.current_func_name.length > 0 && st.current_filename.length > 0) = false) :
    load_step st raw = st := by
  simp only [load_step]
  rw [h1, if_neg Bool.false_ne_true, h2, if_neg Bool.false_ne_true, h3,
    if_neg Bool.false_ne_true]

theorem load_step_nomatch (st : LoadState) (raw : List Char)
    (h1 : kwFUNCTION.isPrefixOf (trim_whitespace raw) = false)
    (h2 : kwFILE.isPrefixOf (trim_whitespace raw) = false)
    (h3 : (st.current_func_name.length > 0 && st.current_filename.length > 0) = true)
    (h4 : findFn st.files st.current_filename st.current_func_name = none) :
    load_step st raw = st := by
  simp only [load_step]
  rw [h1, if_neg Bool.false_ne_true, h2, if_neg Bool.false_ne_true, h3,
    if_pos rfl, h4]

theorem storeNamesOf_cons (raw : List Char) (rest : List (List Char)) :
    storeNamesOf (raw :: rest) =
      (if kwFUNCTION.isPrefixOf (trim_whitespace raw) then
        ((trim_whitespace raw).drop 10).take 127 :: storeNamesOf rest
      else storeNamesOf rest) := by
  unfold storeNamesOf
  rw [List.filterMap_cons]
  by_cases h : kwFUNCTION.isPrefixOf (trim_whitespace raw) = true <;> simp [h]

theorem storeFilesOf_cons (raw : List Char) (rest : List (List Char)) :
    storeFilesOf (raw :: rest) =
      (if kwFILE.isPrefixOf (trim_whitespace raw) then
        ((trim_whitespace raw).drop 6).take 255 :: storeFilesOf rest
      else storeFilesOf rest) := by
  unfold storeFilesOf
  rw [List.filterMap_cons]
  by_cases h : kwFILE.isPrefixOf (trim_whitespace raw) = true <;> simp [h]

theorem storeNamesOf_cons_mono {x raw : List Char} {rest : List (List Char)}
    (h : x ∈ storeNamesOf rest) : x ∈ storeNamesOf (raw :: rest) := by
  rw [storeNamesOf_cons]
  split
  · exact List.mem_cons_of_mem _ h
  · exact h

theorem storeFilesOf_cons_mono {x raw : List Char} {rest : List (List Char)}
    (h : x ∈ storeFilesOf rest) : x ∈ storeFilesOf (raw :: rest) := by
  rw [storeFilesOf_cons]
  split
  · exact List.mem_cons_of_mem _ h
  · exact h

theorem loadGo_no_match (storeLines : List (List Char)) (files : List SourceFileT) :
    ∀ nm0 fn0 : List Char,
    (∀ nmv fnv : List Char, nmv ≠ [] → fnv ≠ [] →
        (nmv = nm0 ∨ nmv ∈ storeNamesOf storeLines) →
        (fnv = fn0 ∨ fnv ∈ storeFilesOf storeLines) →
        findFn files fnv nmv = none) →
    (List.foldl load_step ⟨nm0, fn0, files⟩ storeLines).files = files := by
  induction storeLines with
  | nil => intro nm0 fn0 H; rfl
  | cons raw rest ih =>
    intro nm0 fn0 H
    rw [List.foldl_cons]
    by_cases h1 : kwFUNCTION.isPrefixOf (trim_whitespace raw) = true
    · rw [load_step_kwFUNCTION _ _ h1]
      apply ih
      intro nmv fnv hnm hfn hv1 hv2
      apply H nmv fnv hnm hfn
      · rcases hv1 with rfl | hv1
        · right
          rw [storeNamesOf_cons, if_pos h1]
          exact List.mem_cons_self _ _
        · exact Or.inr (storeNamesOf_cons_mono hv1)
      · rcases hv2 with rfl | hv2
        · exact Or.inl rfl
        · exact Or.inr (storeFilesOf_cons_mono hv2)
    · have h1' : kwFUNCTION.isPrefixOf (trim_whitespace raw) = false :=
        Bool.eq_false_iff.mpr h1
      by_cases h2 : kwFILE.isPrefixOf (trim_whitespace raw) = true
      · rw [load_step_kwFILE _ _ h1' h2]
        apply ih
        intro nmv fnv hnm hfn hv1 hv2
        apply H nmv fnv hnm hfn
        · rcases hv1 with rfl | hv1
          · exact Or.inl rfl
          · exact Or.inr (storeNamesOf_cons_mono hv1)
        · rcases hv2 with rfl | hv2
          · right
            rw [storeFilesOf_cons, if_pos h2]
            exact List.mem_cons_self _ _
          · exact Or.inr (storeFilesOf_cons_mono hv2)
      · have h2' : kwFILE.isPrefixOf (trim_whitespace raw) = false :=
          Bool.eq_false_iff.mpr h2
        have hrec : ∀ nmv fnv : List Char, nmv ≠ [] → fnv ≠ [] →
            (nmv = nm0 ∨ nmv ∈ storeNamesOf rest) →
            (fnv = fn0 ∨ fnv ∈ storeFilesOf rest) →
            findFn files fnv nmv = none := by
          intro nmv fnv hnm hfn hv1 hv2
          apply H nmv fnv hnm hfn
          · rcases hv1 with rfl | hv1
            · exact Or.inl rfl
            · exact Or.inr (storeNamesOf_cons_mono hv1)
          · rcases hv2 with rfl | hv2
            · exact Or.inl rfl
            · exact Or.inr (storeFilesOf_cons_mono hv2)
        by_cases h3 : (nm0.length > 0 && fn0.length > 0) = true
        · have hnm0 : nm0 ≠ [] := by
            rw [Bool.and_eq_true] at h3
            have := of_decide_eq_true h3.1
            exact List.ne_nil_of_length_pos this
          have hfn0 : fn0 ≠ [] := by
            rw [Bool.and_eq_true] at h3
            have := of_decide_eq_true h3.2
            exact List.ne_nil_of_length_pos this
          have h4 : findFn files fn0 nm0 = none :=
            H nm0 fn0 hnm0 hfn0 (Or.inl rfl) (Or.inl rfl)
          rw [load_step_nomatch ⟨nm0, fn0, files⟩ raw h1' h2' h3 h4]
          exact ih nm0 fn0 hrec
        · have h3' : (nm0.length > 0 && fn0.length > 0) = false :=
            Bool.eq_false_iff.mpr h3
          rw [load_step_nokeys ⟨nm0, fn0, files⟩ raw h1' h2' h3']
          exact ih nm0 fn0 hrec

/-- C6: loading never adds a file or a function to the catalog (file count
and every function count are preserved on every store and catalog, with no
error value in the code path at all), and a store none of whose FUNCTION and
FILE key pairs matches the scanned catalog leaves the catalog completely
unchanged. -/
theorem C6_theorem (storeLines : List (List Char)) (files : List SourceFileT) :
    ((load_documentation storeLines files).length = files.length ∧
     (load_documentation storeLines files).map (fun fl => fl.functions.length) =
       files.map (fun fl => fl.functions.length)) ∧
    ((∀ nmv ∈ storeNamesOf storeLines, ∀ fnv ∈ storeFilesOf storeLines,
        findFn files fnv nmv = none) →
      load_documentation storeLines files = files) := by
  constructor
  · constructor
    · exact load_length _ _
    · have h := load_frame storeLines files
      have key : ∀ l : List SourceFileT, l.map (fun fl => fl.functions.length) =
          (catFrame l).map (fun x => x.2.2.length) := by
        intro l
        unfold catFrame
        rw [List.map_map]
        apply List.map_congr_left
        intro fl _
        simp [fileFrame]
      rw [key, key, h]
  · intro H
    unfold load_documentation
    apply loadGo_no_match
    intro nmv fnv hnm hfn hv1 hv2
    rcases hv1 with rfl | hv1
    · exact absurd rfl hnm
    · rcases hv2 with rfl | hv2
      · exact absurd rfl hfn
      · exact H nmv hv1 fnv hv2

/-- Closed instance of C6_theorem: a stale store block for a function g that
the scan of a.c did not produce. -/
theorem C6_witness :
    (∀ nmv ∈ storeNamesOf ["FUNCTION: g".data, "FILE: a.c".data,
        "DESCRIPTION: hello".data, "---".data],
      ∀ fnv ∈ storeFilesOf ["FUNCTION: g".data, "FILE: a.c".data,
        "DESCRIPTION: hello".data, "---".data],
      findFn (scan_project_files [("a.c".data, ["int f()".data])]) fnv nmv = none) ∧
    load_documentation ["FUNCTION: g".data, "FILE: a.c".data,
        "DESCRIPTION: hello".data, "---".data]
      (scan_project_files [("a.c".data, ["int f()".data])]) =
      scan_project_files [("a.c".data, ["int f()".data])] :=
  ⟨by decide, (C6_theorem _ _).2 (by decide)⟩

/-! Building blocks for the round-trip proof. -/

theorem modifyIdx_id {α : Type} (l : List α) (n : Nat) : modifyIdx l n (fun a => a) = l := by
  induction l generalizing n with
  | nil => rfl
  | cons a t ih =>
    cases n with
    | zero => rfl
    | succ m => simp [modifyIdx, ih]

theorem updFn_id (F : List SourceFileT) (i j : Nat) : updFn F i j (fun fn => fn) = F := by
  unfold updFn
  have h : (fun fl : SourceFileT => { fl with functions := modifyIdx fl.functions j fun fn => fn }) =
      fun fl => fl := by
    funext fl
    rw [modifyIdx_id]
  rw [h, modifyIdx_id]

theorem updFn_updFn (F : List SourceFileT) (i j : Nat) (g1 g2 : FunctionT → FunctionT) :
    updFn (updFn F i j g1) i j g2 = updFn F i j (fun fn => g2 (g1 fn)) := by
  unfold updFn
  rw [modifyIdx_modifyIdx_self]
  congr 1
  funext fl
  rw [modifyIdx_modifyIdx_self]

theorem keysTrue (nm fl : List Char) (h1 : nm ≠ []) (h2 : fl ≠ []) :
    (nm.length > 0 && fl.length > 0) = true := by
  rw [Bool.and_eq_true]
  exact ⟨decide_eq_true (List.length_pos.mpr h1), decide_eq_true (List.length_pos.mpr h2)⟩

theorem trim_kw_append (kw x : List Char) (a : Char) (q : List Char) (hkw : kw = a :: q)
    (ha : isSpaceC a = false) (hx : x ≠ []) (hfix : rstrip x = x) :
    trim_whitespace (kw ++ x) = kw ++ x := by
  subst hkw
  exact trim_marker_append a q x ha hx hfix

theorem kw_pfx_false_head (kw : List Char) (c' : Char) (q : List Char) (hkw : kw = c' :: q)
    (c : Char) (s r : List Char) (hr : r = c :: s) (hne : (c' == c) = false) :
    kw.isPrefixOf r = false := by
  subst hkw
  subst hr
  exact isPrefixOf_false_of_head (List.prefix_refl _) hne

theorem kw_pfx_false_second (kw : List Char) (c d' : Char) (q : List Char)
    (hkw : kw = c :: d' :: q) (d : Char) (s r : List Char) (hr : r = c :: d :: s)
    (hne : (d' == d) = false) :
    kw.isPrefixOf r = false := by
  subst hkw
  subst hr
  exact isPrefixOf_false_of_second (List.prefix_refl _) hne

theorem load_step_inert (st : LoadState) (raw : List Char) (i j : Nat)
    (hF : kwFUNCTION.isPrefixOf (trim_whitespace raw) = false)
    (hFi : kwFILE.isPrefixOf (trim_whitespace raw) = false)
    (hkeys : (st.current_func_name.length > 0 && st.current_filename.length > 0) = true)
    (hfind : findFn st.files st.current_filename st.current_func_name = some (i, j))
    (hD : kwDESCRIPTION.isPrefixOf (trim_whitespace raw) = false)
    (hP : kwPARAMETERS.isPrefixOf (trim_whitespace raw) = false)
    (hR : kwRETURN.isPrefixOf (trim_whitespace raw) = false)
    (hE : kwEXAMPLE.isPrefixOf (trim_whitespace raw) = false)
    (hN : kwNOTES.isPrefixOf (trim_whitespace raw) = false)
    (hdash : trim_whitespace raw ≠ kwDashes) :
    load_step st raw = st := by
  simp only [load_step]
  rw [hF, if_neg Bool.false_ne_true, hFi, if_neg Bool.false_ne_true, hkeys, if_pos rfl, hfind]
  dsimp only
  rw [hD, if_neg Bool.false_ne_true, hP, if_neg Bool.false_ne_true, hR, if_neg Bool.false_ne_true,
    hE, if_neg Bool.false_ne_true, hN, if_neg Bool.false_ne_true, if_neg hdash]

theorem load_step_dashes (st : LoadState) (raw : List Char) (i j : Nat)
    (hF : kwFUNCTION.isPrefixOf (trim_whitespace raw) = false)
    (hFi : kwFILE.isPrefixOf (trim_whitespace raw) = false)
    (hkeys : (st.current_func_name.length > 0 && st.current_filename.length > 0) = true)
    (hfind : findFn st.files st.current_filename st.current_func_name = some (i, j))
    (hD : kwDESCRIPTION.isPrefixOf (trim_whitespace raw) = false)
    (hP : kwPARAMETERS.isPrefixOf (trim_whitespace raw) = false)
    (hR : kwRETURN.isPrefixOf (trim_whitespace raw) = false)
    (hE : kwEXAMPLE.isPrefixOf (trim_whitespace raw) = false)
    (hN : kwNOTES.isPrefixOf (trim_whitespace raw) = false)
    (hdash : trim_whitespace raw = kwDashes) :
    load_step st raw = { st with current_func_name := [], current_filename := [] } := by
  simp only [load_step]
  rw [hF, if_neg Bool.false_ne_true, hFi, if_neg Bool.false_ne_true, hkeys, if_pos rfl, hfind]
  dsimp only
  rw [hD, if_neg Bool.false_ne_true, hP, if_neg Bool.false_ne_true, hR, if_neg Bool.false_ne_true,
    hE, if_neg Bool.false_ne_true, hN, if_neg Bool.false_ne_true, if_pos hdash]

theorem load_step_writeD (st : LoadState) (raw : List Char) (i j : Nat)
    (hF : kwFUNCTION.isPrefixOf (trim_whitespace raw) = false)
    (hFi : kwFILE.isPrefixOf (trim_whitespace raw) = false)
    (hkeys : (st.current_func_name.length > 0 && st.current_filename.length > 0) = true)
    (hfind : findFn st.files st.current_filename st.current_func_name = some (i, j))
    (hD : kwDESCRIPTION.isPrefixOf (trim_whitespace raw) = true) :
    load_step st raw = { st with files := updFn st.files i j (fun fn =>
      { fn with description := ((trim_whitespace raw).drop 13).take 511,
                is_documented := true }) } := by
  simp only [load_step]
  rw [hF, if_neg Bool.false_ne_true, hFi, if_neg Bool.false_ne_true, hkeys, if_pos rfl, hfind]
  dsimp only
  rw [hD, if_pos rfl]

theorem load_step_writeP (st : LoadState) (raw : List Char) (i j : Nat)
    (hF : kwFUNCTION.isPrefixOf (trim_whitespace raw) = false)
    (hFi : kwFILE.isPrefixOf (trim_whitespace raw) = false)
    (hkeys : (st.current_func_name.length > 0 && st.current_filename.length > 0) = true)
    (hfind : findFn st.files st.current_filename st.current_func_name = some (i, j))
    (hD : kwDESCRIPTION.isPrefixOf (trim_whitespace raw) = false)
    (hP : kwPARAMETERS.isPrefixOf (trim_whitespace raw) = true) :
    load_step st raw = { st with files := updFn st.files i j (fun fn =>
      { fn with parameters := ((trim_whitespace raw).drop 12).take 511 }) } := by
  simp only [load_step]
  rw [hF, if_neg Bool.false_ne_true, hFi, if_neg Bool.false_ne_true, hkeys, if_pos rfl, hfind]
  dsimp only
  rw [hD, if_neg Bool.false_ne_true, hP, if_pos rfl]

theorem load_step_writeR (st : LoadState) (raw : List Char) (i j : Nat)
    (hF : kwFUNCTION.isPrefixOf (trim_whitespace raw) = false)
    (hFi : kwFILE.isPrefixOf (trim_whitespace raw) = false)
    (hkeys : (st.current_func_name.length > 0 && st.current_filename.length > 0) = true)
    (hfind : findFn st.files st.current_filename st.current_func_name = some (i, j))
    (hD : kwDESCRIPTION.isPrefixOf (trim_whitespace raw) = false)
    (hP : kwPARAMETERS.isPrefixOf (trim_whitespace raw) = false)
    (hR : kwRETURN.isPrefixOf (trim_whitespace raw) = true) :
    load_step st raw = { st with files := updFn st.files i j (fun fn =>
      { fn with return_value := ((trim_whitespace raw).drop 8).take 511 }) } := by
  simp only [load_step]
  rw [hF, if_neg Bool.false_ne_true, hFi, if_neg Bool.false_ne_true, hkeys, if_pos rfl, hfind]
  dsimp only
  rw [hD, if_neg Bool.false_ne_true, hP, if_neg Bool.false_ne_true, hR, if_pos rfl]

theorem load_step_writeE (st : LoadState) (raw : List Char) (i j : Nat)
    (hF : kwFUNCTION.isPrefixOf (trim_whitespace raw) = false)
    (hFi : kwFILE.isPrefixOf (trim_whitespace raw) = false)
    (hkeys : (st.current_func_name.length > 0 && st.current_filename.length > 0) = true)
    (hfind : findFn st.files st.current_filename st.current_func_name = some (i, j))
    (hD : kwDESCRIPTION.isPrefixOf (trim_whitespace raw) = false)
    (hP : kwPARAMETERS.isPrefixOf (trim_whitespace raw) = false)
    (hR : kwRETURN.isPrefixOf (trim_whitespace raw) = false)
    (hE : kwEXAMPLE.isPrefixOf (trim_whitespace raw) = true) :
    load_step st raw = { st with files := updFn st.files i j (fun fn =>
      { fn with exampl := ((trim_whitespace raw).drop 9).take 511 }) } := by
  simp only [load_step]
  rw [hF, if_neg Bool.false_ne_true, hFi, if_neg Bool.false_ne_true, hkeys, if_pos rfl, hfind]
  dsimp only
  rw [hD, if_neg Bool.false_ne_true, hP, if_neg Bool.false_ne_true, hR, if_neg Bool.false_ne_true,
    hE, if_pos rfl]

theorem load_step_writeN (st : LoadState) (raw : List Char) (i j : Nat)
    (hF : kwFUNCTION.isPrefixOf (trim_whitespace raw) = false)
    (hFi : kwFILE.isPrefixOf (trim_whitespace raw) = false)
    (hkeys : (st.current_func_name.length > 0 && st.current_filename.length > 0) = true)
    (hfind : findFn st.files st.current_filename st.current_func_name = some (i, j))
    (hD : kwDESCRIPTION.isPrefixOf (trim_whitespace raw) = false)
    (hP : kwPARAMETERS.isPrefixOf (trim_whitespace raw) = false)
    (hR : kwRETURN.isPrefixOf (trim_whitespace raw) = false)
    (hE : kwEXAMPLE.isPrefixOf (trim_whitespace raw) = false)
    (hN : kwNOTES.isPrefixOf (trim_whitespace raw) = true) :
    load_step st raw = { st with files := updFn st.files i j (fun fn =>
      { fn with notes := ((trim_whitespace raw).drop 7).take 511 }) } := by
  simp only [load_step]
  rw [hF, if_neg Bool.false_ne_true, hFi, if_neg Bool.false_ne_true, hkeys, if_pos rfl, hfind]
  dsimp only
  rw [hD, if_neg Bool.false_ne_true, hP, if_neg Bool.false_ne_true, hR, if_neg Bool.false_ne_true,
    hE, if_neg Bool.false_ne_true, hN, if_pos rfl]

/-! The ten lines of one saved block, stepped one at a time. -/

theorem load_block_lineFUNCTION (st : LoadState) (v : List Char)
    (hv : v ≠ []) (hlen : v.length ≤ 127) (hfix : rstrip v = v) :
    load_step st (kwFUNCTION ++ v) = { st with current_func_name := v } := by
  have htrim := trim_kw_append kwFUNCTION v 'F' _ rfl (by decide) hv hfix
  rw [load_step_kwFUNCTION st _ (by rw [htrim]; exact isPrefixOf_append_self _ _)]
  rw [htrim]
  rw [show (kwFUNCTION ++ v).drop 10 = v from by
    rw [show (10 : Nat) = kwFUNCTION.length from rfl, List.drop_left]]
  rw [List.take_of_length_le hlen]

theorem load_block_lineFILE (st : LoadState) (v : List Char)
    (hv : v ≠ []) (hlen : v.length ≤ 255) (hfix : rstrip v = v) :
    load_step st (kwFILE ++ v) = { st with current_filename := v } := by
  have htrim := trim_kw_append kwFILE v 'F' _ rfl (by decide) hv hfix
  have hF : kwFUNCTION.isPrefixOf (trim_whitespace (kwFILE ++ v)) = false := by
    rw [htrim]
    exact kw_pfx_false_second _ 'F' 'U' _ rfl 'I' ("LE: ".data ++ v) _ rfl (by decide)
  rw [load_step_kwFILE st _ hF (by rw [htrim]; exact isPrefixOf_append_self _ _)]
  rw [htrim]
  rw [show (kwFILE ++ v).drop 6 = v from by
    rw [show (6 : Nat) = kwFILE.length from rfl, List.drop_left]]
  rw [List.take_of_length_le hlen]

theorem load_block_lineLINE (st : LoadState) (d : List Char) (i j : Nat)
    (hkeys : (st.current_func_name.length > 0 && st.current_filename.length > 0) = true)
    (hfind : findFn st.files st.current_filename st.current_func_name = some (i, j)) :
    load_step st (kwLINE ++ d) = st := by
  have hpre : trim_whitespace (kwLINE ++ d) <+: ('L' :: ("INE: ".data ++ d)) := by
    rw [show ('L' :: ("INE: ".data ++ d)) = kwLINE ++ d from rfl]
    exact trim_prefix _
  refine load_step_inert st _ i j ?_ ?_ hkeys hfind ?_ ?_ ?_ ?_ ?_ ?_
  · exact isPrefixOf_false_of_head hpre (by decide)
  · exact isPrefixOf_false_of_head hpre (by decide)
  · exact isPrefixOf_false_of_head hpre (by decide)
  · exact isPrefixOf_false_of_head hpre (by decide)
  · exact isPrefixOf_false_of_head hpre (by decide)
  · exact isPrefixOf_false_of_head hpre (by decide)
  · exact isPrefixOf_false_of_head hpre (by decide)
  · exact ne_cons_of_prefix_head hpre (by decide)

theorem load_block_lineSIGNATURE (st : LoadState) (d : List Char) (i j : Nat)
    (hkeys : (st.current_func_name.length > 0 && st.current_filename.length > 0) = true)
    (hfind : findFn st.files st.current_filename st.current_func_name = some (i, j)) :
    load_step st (kwSIGNATURE ++ d) = st := by
  have hpre : trim_whitespace (kwSIGNATURE ++ d) <+: ('S' :: ("IGNATURE: ".data ++ d)) := by
    rw [show ('S' :: ("IGNATURE: ".data ++ d)) = kwSIGNATURE ++ d from rfl]
    exact trim_prefix _
  refine load_step_inert st _ i j ?_ ?_ hkeys hfind ?_ ?_ ?_ ?_ ?_ ?_
  · exact isPrefixOf_false_of_head hpre (by decide)
  · exact isPrefixOf_false_of_head hpre (by decide)
  · exact isPrefixOf_false_of_head hpre (by decide)
  · exact isPrefixOf_false_of_head hpre (by decide)
  · exact isPrefixOf_false_of_head hpre (by decide)
  · exact isPrefixOf_false_of_head hpre (by decide)
  · exact isPrefixOf_false_of_head hpre (by decide)
  · exact ne_cons_of_prefix_head hpre (by decide)

theorem load_block_lineD (st : LoadState) (v : List Char) (i j : Nat)
    (hkeys : (st.current_func_name.length > 0 && st.current_filename.length > 0) = true)
    (hfind : findFn st.files st.current_filename st.current_func_name = some (i, j))
    (hv : v ≠ []) (hlen : v.length ≤ 511) (hfix : rstrip v = v) :
    load_step st (kwDESCRIPTION ++ v) =
      { st with files := updFn st.files i j (fun old =>
          { old with description := v, is_documented := true }) } := by
  have htrim := trim_kw_append kwDESCRIPTION v 'D' _ rfl (by decide) hv hfix
  have hF : kwFUNCTION.isPrefixOf (trim_whitespace (kwDESCRIPTION ++ v)) = false := by
    rw [htrim]
    exact kw_pfx_false_head _ 'F' _ rfl 'D' ("ESCRIPTION: ".data ++ v) _ rfl (by decide)
  have hFi : kwFILE.isPrefixOf (trim_whitespace (kwDESCRIPTION ++ v)) = false := by
    rw [htrim]
    exact kw_pfx_false_head _ 'F' _ rfl 'D' ("ESCRIPTION: ".data ++ v) _ rfl (by decide)
  have hD : kwDESCRIPTION.isPrefixOf (trim_whitespace (kwDESCRIPTION ++ v)) = true := by
    rw [htrim]
    exact isPrefixOf_append_self _ _
  rw [load_step_writeD st _ i j hF hFi hkeys hfind hD]
  have hdrop : (kwDESCRIPTION ++ v).drop 13 = v := by
    rw [show (13 : Nat) = kwDESCRIPTION.length from rfl, List.drop_left]
  simp only [htrim, hdrop, List.take_of_length_le hlen]

theorem load_block_lineP (st : LoadState) (v : List Char) (i j : Nat)
    (hkeys : (st.current_func_name.length > 0 && st.current_filename.length > 0) = true)
    (hfind : findFn st.files st.current_filename st.current_func_name = some (i, j))
    (hlen : v.length ≤ 511) (hfix : rstrip v = v) :
    load_step st (kwPARAMETERS ++ v) =
      { st with files := updFn st.files i j (fun old =>
          { old with parameters := if v = [] then old.parameters else v }) } := by
  by_cases hv : v = []
  · subst hv
    rw [List.append_nil]
    rw [load_step_inert st kwPARAMETERS i j (by decide) (by decide) hkeys hfind
      (by decide) (by decide) (by decide) (by decide) (by decide) (by decide)]
    have hfun : (fun old : FunctionT =>
        { old with parameters := if ([] : List Char) = [] then old.parameters else [] }) =
        fun old => old := by
      funext old
      simp
    rw [hfun, updFn_id]
  · simp only [if_neg hv]
    have htrim := trim_kw_append kwPARAMETERS v 'P' _ rfl (by decide) hv hfix
    have hF : kwFUNCTION.isPrefixOf (trim_whitespace (kwPARAMETERS ++ v)) = false := by
      rw [htrim]
      exact kw_pfx_false_head _ 'F' _ rfl 'P' ("ARAMETERS: ".data ++ v) _ rfl (by decide)
    have hFi : kwFILE.isPrefixOf (trim_whitespace (kwPARAMETERS ++ v)) = false := by
      rw [htrim]
      exact kw_pfx_false_head _ 'F' _ rfl 'P' ("ARAMETERS: ".data ++ v) _ rfl (by decide)
    have hD : kwDESCRIPTION.isPrefixOf (trim_whitespace (kwPARAMETERS ++ v)) = false := by
      rw [htrim]
      exact kw_pfx_false_head _ 'D' _ rfl 'P' ("ARAMETERS: ".data ++ v) _ rfl (by decide)
    have hP : kwPARAMETERS.isPrefixOf (trim_whitespace (kwPARAMETERS ++ v)) = true := by
      rw [htrim]
      exact isPrefixOf_append_self _ _
    rw [load_step_writeP st _ i j hF hFi hkeys hfind hD hP]
    have hdrop : (kwPARAMETERS ++ v).drop 12 = v := by
      rw [show (12 : Nat) = kwPARAMETERS.length from rfl, List.drop_left]
    simp only [htrim, hdrop, List.take_of_length_le hlen]

theorem load_block_lineR (st : LoadState) (v : List Char) (i j : Nat)
    (hkeys : (st.current_func_name.length > 0 && st.current_filename.length > 0) = true)
    (hfind : findFn st.files st.current_filename st.current_func_name = some (i, j))
    (hlen : v.length ≤ 511) (hfix : rstrip v = v) :
    load_step st (kwRETURN ++ v) =
      { st with files := updFn st.files i j (fun old =>
          { old with return_value := if v = [] then old.return_value else v }) } := by
  by_cases hv : v = []
  · subst hv
    rw [List.append_nil]
    rw [load_step_inert st kwRETURN i j (by decide) (by decide) hkeys hfind
      (by decide) (by decide) (by decide) (by decide) (by decide) (by decide)]
    have hfun : (fun old : FunctionT =>
        { old with return_value := if ([] : List Char) = [] then old.return_value else [] }) =
        fun old => old := by
      funext old
      simp
    rw [hfun, updFn_id]
  · simp only [if_neg hv]
    have htrim := trim_kw_append kwRETURN v 'R' _ rfl (by decide) hv hfix
    have hF : kwFUNCTION.isPrefixOf (trim_whitespace (kwRETURN ++ v)) = false := by
      rw [htrim]
      exact kw_pfx_false_head _ 'F' _ rfl 'R' ("ETURN: ".data ++ v) _ rfl (by decide)
    have hFi : kwFILE.isPrefixOf (trim_whitespace (kwRETURN ++ v)) = false := by
      rw [htrim]
      exact kw_pfx_false_head _ 'F' _ rfl 'R' ("ETURN: ".data ++ v) _ rfl (by decide)
    have hD : kwDESCRIPTION.isPrefixOf (trim_whitespace (kwRETURN ++ v)) = false := by
      rw [htrim]
      exact kw_pfx_false_head _ 'D' _ rfl 'R' ("ETURN: ".data ++ v) _ rfl (by decide)
    have hP : kwPARAMETERS.isPrefixOf (trim_whitespace (kwRETURN ++ v)) = false := by
      rw [htrim]
      exact kw_pfx_false_head _ 'P' _ rfl 'R' ("ETURN: ".data ++ v) _ rfl (by decide)
    have hR : kwRETURN.isPrefixOf (trim_whitespace (kwRETURN ++ v)) = true := by
      rw [htrim]
      exact isPrefixOf_append_self _ _
    rw [load_step_writeR st _ i j hF hFi hkeys hfind hD hP hR]
    have hdrop : (kwRETURN ++ v).drop 8 = v := by
      rw [show (8 : Nat) = kwRETURN.length from rfl, List.drop_left]
    simp only [htrim, hdrop, List.take_of_length_le hlen]

theorem load_block_lineE (st : LoadState) (v : List Char) (i j : Nat)
    (hkeys : (st.current_func_name.length > 0 && st.current_filename.length > 0) = true)
    (hfind : findFn st.files st.current_filename st.current_func_name = some (i, j))
    (hlen : v.length ≤ 511) (hfix : rstrip v = v) :
    load_step st (kwEXAMPLE ++ v) =
      { st with files := updFn st.files i j (fun old =>
          { old with exampl := if v = [] then old.exampl else v }) } := by
  by_cases hv : v = []
  · subst hv
    rw [List.append_nil]
    rw [load_step_inert st kwEXAMPLE i j (by decide) (by decide) hkeys hfind
      (by decide) (by decide) (by decide) (by decide) (by decide) (by decide)]
    have hfun : (fun old : FunctionT =>
        { old with exampl := if ([] : List Char) = [] then old.exampl else [] }) =
        fun old => old := by
      funext old
      simp
    rw [hfun, updFn_id]
  · simp only [if_neg hv]
    have htrim := trim_kw_append kwEXAMPLE v 'E' _ rfl (by decide) hv hfix
    have hF : kwFUNCTION.isPrefixOf (trim_whitespace (kwEXAMPLE ++ v)) = false := by
      rw [htrim]
      exact kw_pfx_false_head _ 'F' _ rfl 'E' ("XAMPLE: ".data ++ v) _ rfl (by decide)
    have hFi : kwFILE.isPrefixOf (trim_whitespace (kwEXAMPLE ++ v)) = false := by
      rw [htrim]
      exact kw_pfx_false_head _ 'F' _ rfl 'E' ("XAMPLE: ".data ++ v) _ rfl (by decide)
    have hD : kwDESCRIPTION.isPrefixOf (trim_whitespace (kwEXAMPLE ++ v)) = false := by
      rw [htrim]
      exact kw_pfx_false_head _ 'D' _ rfl 'E' ("XAMPLE: ".data ++ v) _ rfl (by decide)
    have hP : kwPARAMETERS.isPrefixOf (trim_whitespace (kwEXAMPLE ++ v)) = false := by
      rw [htrim]
      exact kw_pfx_false_head _ 'P' _ rfl 'E' ("XAMPLE: ".data ++ v) _ rfl (by decide)
    have hR : kwRETURN.isPrefixOf (trim_whitespace (kwEXAMPLE ++ v)) = false := by
      rw [htrim]
      exact kw_pfx_false_head _ 'R' _ rfl 'E' ("XAMPLE: ".data ++ v) _ rfl (by decide)
    have hE : kwEXAMPLE.isPrefixOf (trim_whitespace (kwEXAMPLE ++ v)) = true := by
      rw [htrim]
      exact isPrefixOf_append_self _ _
    rw [load_step_writeE st _ i j hF hFi hkeys hfind hD hP hR hE]
    have hdrop : (kwEXAMPLE ++ v).drop 9 = v := by
      rw [show (9 : Nat) = kwEXAMPLE.length from rfl, List.drop_left]
    simp only [htrim, hdrop, List.take_of_length_le hlen]

theorem load_block_lineN (st : LoadState) (v : List Char) (i j : Nat)
    (hkeys : (st.current_func_name.length > 0 && st.current_filename.length > 0) = true)
    (hfind : findFn st.files st.current_filename st.current_func_name = some (i, j))
    (hlen : v.length ≤ 511) (hfix : rstrip v = v) :
    load_step st (kwNOTES ++ v) =
      { st with files := updFn st.files i j (fun old =>
          { old with notes := if v = [] then old.notes else v }) } := by
  by_cases hv : v = []
  · subst hv
    rw [List.append_nil]
    rw [load_step_inert st kwNOTES i j (by decide) (by decide) hkeys hfind
      (by decide) (by decide) (by decide) (by decide) (by decide) (by decide)]
    have hfun : (fun old : FunctionT =>
        { old with notes := if ([] : List Char) = [] then old.notes else [] }) =
        fun old => old := by
      funext old
      simp
    rw [hfun, updFn_id]
  · simp only [if_neg hv]
    have htrim := trim_kw_append kwNOTES v 'N' _ rfl (by decide) hv hfix
    have hF : kwFUNCTION.isPrefixOf (trim_whitespace (kwNOTES ++ v)) = false := by
      rw [htrim]
      exact kw_pfx_false_head _ 'F' _ rfl 'N' ("OTES: ".data ++ v) _ rfl (by decide)
    have hFi : kwFILE.isPrefixOf (trim_whitespace (kwNOTES ++ v)) = false := by
      rw [htrim]
      exact kw_pfx_false_head _ 'F' _ rfl 'N' ("OTES: ".data ++ v) _ rfl (by decide)
    have hD : kwDESCRIPTION.isPrefixOf (trim_whitespace (kwNOTES ++ v)) = false := by
      rw [htrim]
      exact kw_pfx_false_head _ 'D' _ rfl 'N' ("OTES: ".data ++ v) _ rfl (by decide)
    have hP : kwPARAMETERS.isPrefixOf (trim_whitespace (kwNOTES ++ v)) = false := by
      rw [htrim]
      exact kw_pfx_false_head _ 'P' _ rfl 'N' ("OTES: ".data ++ v) _ rfl (by decide)
    have hR : kwRETURN.isPrefixOf (trim_whitespace (kwNOTES ++ v)) = false := by
      rw [htrim]
      exact kw_pfx_false_head _ 'R' _ rfl 'N' ("OTES: ".data ++ v) _ rfl (by decide)
    have hE : kwEXAMPLE.isPrefixOf (trim_whitespace (kwNOTES ++ v)) = false := by
      rw [htrim]
      exact kw_pfx_false_head _ 'E' _ rfl 'N' ("OTES: ".data ++ v) _ rfl (by decide)
    have hN : kwNOTES.isPrefixOf (trim_whitespace (kwNOTES ++ v)) = true := by
      rw [htrim]
      exact isPrefixOf_append_self _ _
    rw [load_step_writeN st _ i j hF hFi hkeys hfind hD hP hR hE hN]
    have hdrop : (kwNOTES ++ v).drop 7 = v := by
      rw [show (7 : Nat) = kwNOTES.length from rfl, List.drop_left]
    simp only [htrim, hdrop, List.take_of_length_le hlen]

theorem load_block_lineDash (st : LoadState) (i j : Nat)
    (hkeys : (st.current_func_name.length > 0 && st.current_filename.length > 0) = true)
    (hfind : findFn st.files st.current_filename st.current_func_name = some (i, j)) :
    load_step st kwDashes = { st with current_func_name := [], current_filename := [] } :=
  load_step_dashes st kwDashes i j (by decide) (by decide) hkeys hfind (by decide) (by decide)
    (by decide) (by decide) (by decide) (by decide)

/-! The lookup depends only on the catalog frame. -/

theorem firstIdxG_map_factor {α β : Type} (p : α → Bool) (q : β → Bool) (f : α → β)
    (l : List α) (h : ∀ a, p a = q (f a)) : firstIdxG p l = firstIdxG q (l.map f) := by
  induction l with
  | nil => rfl
  | cons a t ih =>
    rw [List.map_cons]
    by_cases hp : p a = true
    · rw [firstIdxG_cons_pos _ _ _ hp, firstIdxG_cons_pos _ _ _ (by rw [← h]; exact hp)]
    · have hp' := Bool.eq_false_iff.mpr hp
      rw [firstIdxG_cons_neg _ _ _ hp', firstIdxG_cons_neg _ _ _ (by rw [← h]; exact hp'), ih]

theorem findFn_congr (F F' : List SourceFileT) (h : catFrame F = catFrame F')
    (fname nm : List Char) : findFn F fname nm = findFn F' fname nm := by
  unfold findFn
  have h1 : firstIdxG (fun fl => fl.filename == fname) F =
      firstIdxG (fun fl => fl.filename == fname) F' := by
    rw [firstIdxG_map_factor (fun fl : SourceFileT => fl.filename == fname)
        (fun x => x.1 == fname) fileFrame F (fun a => rfl),
        firstIdxG_map_factor (fun fl : SourceFileT => fl.filename == fname)
        (fun x => x.1 == fname) fileFrame F' (fun a => rfl)]
    unfold catFrame at h
    rw [h]
  rw [h1]
  cases hidx : firstIdxG (fun fl => fl.filename == fname) F' with
  | none => rfl
  | some i =>
    dsimp only
    have h2 : (F.get? i).map fileFrame = (F'.get? i).map fileFrame := by
      rw [← List.get?_map, ← List.get?_map]
      unfold catFrame at h
      rw [h]
    cases hF : F.get? i with
    | none =>
      cases hF' : F'.get? i with
      | none => rfl
      | some fl' => rw [hF, hF'] at h2; cases h2
    | some fl =>
      cases hF' : F'.get? i with
      | none => rw [hF, hF'] at h2; cases h2
      | some fl' =>
        have h3 : fileFrame fl = fileFrame fl' := by
          rw [hF, hF'] at h2
          simpa using h2
        have h4 : firstIdxG (fun fn => fn.name == nm) fl.functions =
            firstIdxG (fun fn => fn.name == nm) fl'.functions := by
          rw [firstIdxG_map_factor (fun fn : FunctionT => fn.name == nm)
              (fun x => x.1 == nm) fnFrame fl.functions (fun a => rfl),
              firstIdxG_map_factor (fun fn : FunctionT => fn.name == nm)
              (fun x => x.1 == nm) fnFrame fl'.functions (fun a => rfl)]
          have h5 : fl.functions.map fnFrame = fl'.functions.map fnFrame := by
            have h6 := congrArg (fun x => x.2.2) h3
            simpa [fileFrame] using h6
          rw [h5]
        dsimp only
        rw [h4]

theorem firstIdxG_eq_of_nodup {α β : Type} [BEq β] [LawfulBEq β] (f : α → β)
    (l : List α) (i : Nat) (a : α)
    (hget : l.get? i = some a) (hnodup : (l.map f).Nodup) :
    firstIdxG (fun x => f x == f a) l = some i := by
  induction l generalizing i with
  | nil => cases hget
  | cons b t ih =>
    cases i with
    | zero =>
      have hb : b = a := by
        rw [List.get?_cons_zero] at hget
        exact (Option.some.inj hget)
      subst hb
      exact firstIdxG_cons_pos _ _ _ (by simp)
    | succ k =>
      rw [List.get?_cons_succ] at hget
      have hmem : a ∈ t := List.get?_mem hget
      rw [List.map_cons, List.nodup_cons] at hnodup
      have hne : (f b == f a) = false := by
        rw [Bool.eq_false_iff]
        intro hcontr
        have : f b = f a := by simpa using hcontr
        exact hnodup.1 (this ▸ List.mem_map_of_mem f hmem)
      have hcn : firstIdxG (fun x => f x == f a) (b :: t) =
          (firstIdxG (fun x => f x == f a) t).map (· + 1) :=
        firstIdxG_cons_neg (fun x => f x == f a) b t hne
      rw [hcn, ih k hget hnodup.2]
      rfl

theorem findFn_self (F : List SourceFileT) (i j : Nat) (fl : SourceFileT) (fn : FunctionT)
    (hfl : F.get? i = some fl) (hfn : fl.functions.get? j = some fn)
    (hnodupF : (F.map (fun x => x.filename)).Nodup)
    (hnodupN : (fl.functions.map (fun x => x.name)).Nodup) :
    findFn F fl.filename fn.name = some (i, j) := by
  unfold findFn
  have h1 : firstIdxG (fun x => x.filename == fl.filename) F = some i :=
    firstIdxG_eq_of_nodup (fun x => x.filename) F i fl hfl hnodupF
  rw [h1]
  dsimp only
  rw [hfl]
  dsimp only
  have h2 : firstIdxG (fun x => x.name == fn.name) fl.functions = some j :=
    firstIdxG_eq_of_nodup (fun x => x.name) fl.functions j fn hfn hnodupN
  rw [h2]

/-- Effect of loading one saved block onto a catalog that contains the
matching function at position (i, j): the description is written (with the
flag), each of the other four fields is written exactly when it is
non-empty in the block, and the keys end cleared. -/
theorem loadGo_docBlock (F : List SourceFileT) (fn : FunctionT) (i j : Nat)
    (hfind : findFn F fn.filename fn.name = some (i, j))
    (hname1 : fn.name ≠ []) (hname2 : fn.name.length ≤ 127)
    (hname3 : rstrip fn.name = fn.name)
    (hfname1 : fn.filename ≠ []) (hfname2 : fn.filename.length ≤ 255)
    (hfname3 : rstrip fn.filename = fn.filename)
    (hdesc1 : fn.description ≠ []) (hdesc2 : fn.description.length ≤ 511)
    (hdesc3 : rstrip fn.description = fn.description)
    (hpar2 : fn.parameters.length ≤ 511) (hpar3 : rstrip fn.parameters = fn.parameters)
    (hret2 : fn.return_value.length ≤ 511) (hret3 : rstrip fn.return_value = fn.return_value)
    (hexa2 : fn.exampl.length ≤ 511) (hexa3 : rstrip fn.exampl = fn.exampl)
    (hnot2 : fn.notes.length ≤ 511) (hnot3 : rstrip fn.notes = fn.notes) :
    List.foldl load_step ⟨[], [], F⟩ (docBlock fn) =
      ⟨[], [], updFn F i j (fun old =>
        { old with
          description := fn.description
          parameters := if fn.parameters = [] then old.parameters else fn.parameters
          return_value := if fn.return_value = [] then old.return_value else fn.return_value
          exampl := if fn.exampl = [] then old.exampl else fn.exampl
          notes := if fn.notes = [] then old.notes else fn.notes
          is_documented := true })⟩ := by
  have hkeys : ((fn.name).length > 0 && (fn.filename).length > 0) = true :=
    keysTrue _ _ hname1 hfname1
  have A1 : load_step ⟨[], [], F⟩ (kwFUNCTION ++ fn.name) =
      (⟨fn.name, [], F⟩ : LoadState) := by
    rw [load_block_lineFUNCTION _ _ hname1 hname2 hname3]
  have A2 : load_step ⟨fn.name, [], F⟩ (kwFILE ++ fn.filename) =
      (⟨fn.name, fn.filename, F⟩ : LoadState) := by
    rw [load_block_lineFILE _ _ hfname1 hfname2 hfname3]
  have A3 : load_step ⟨fn.name, fn.filename, F⟩ (kwLINE ++ (Nat.repr fn.line_number).data) =
      (⟨fn.name, fn.filename, F⟩ : LoadState) :=
    load_block_lineLINE _ _ i j hkeys hfind
  have A4 : load_step ⟨fn.name, fn.filename, F⟩ (kwSIGNATURE ++ fn.signature) =
      (⟨fn.name, fn.filename, F⟩ : LoadState) :=
    load_block_lineSIGNATURE _ _ i j hkeys hfind
  have A5 : load_step ⟨fn.name, fn.filename, F⟩ (kwDESCRIPTION ++ fn.description) =
      (⟨fn.name, fn.filename,
        updFn F i j (fun old =>
          { old with description := fn.description, is_documented := true })⟩ : LoadState) := by
    rw [load_block_lineD _ _ i j hkeys hfind hdesc1 hdesc2 hdesc3]
  have hcf1 : catFrame (updFn F i j (fun old =>
      { old with description := fn.description, is_documented := true })) = catFrame F :=
    catFrame_updFn F i j _ (fun old => rfl)
  have hfind1 : findFn (updFn F i j (fun old =>
      { old with description := fn.description, is_documented := true }))
      fn.filename fn.name = some (i, j) := by
    rw [findFn_congr _ F hcf1]
    exact hfind
  have A6 : load_step ⟨fn.name, fn.filename,
      updFn F i j (fun old =>
        { old with description := fn.description, is_documented := true })⟩
      (kwPARAMETERS ++ fn.parameters) =
      (⟨fn.name, fn.filename,
        updFn (updFn F i j (fun old =>
          { old with description := fn.description, is_documented := true })) i j (fun old =>
          { old with parameters := if fn.parameters = [] then old.parameters
                                   else fn.parameters })⟩ : LoadState) := by
    rw [load_block_lineP _ _ i j hkeys hfind1 hpar2 hpar3]
  have hcf2 : catFrame (updFn (updFn F i j (fun old =>
      { old with description := fn.description, is_documented := true })) i j (fun old =>
      { old with parameters := if fn.parameters = [] then old.parameters
                               else fn.parameters })) = catFrame F := by
    refine Eq.trans (catFrame_updFn _ i j _ ?_) hcf1
    intro old
    rfl
  have hfind2 : findFn (updFn (updFn F i j (fun old =>
      { old with description := fn.description, is_documented := true })) i j (fun old =>
      { old with parameters := if fn.parameters = [] then old.parameters
                               else fn.parameters })) fn.filename fn.name = some (i, j) := by
    rw [findFn_congr _ F hcf2]
    exact hfind
  have A7 : load_step ⟨fn.name, fn.filename,
      updFn (updFn F i j (fun old =>
        { old with description := fn.description, is_documented := true })) i j (fun old =>
        { old with parameters := if fn.parameters = [] then old.parameters
                                 else fn.parameters })⟩
      (kwRETURN ++ fn.return_value) =
      (⟨fn.name, fn.filename,
        updFn (updFn (updFn F i j (fun old =>
          { old with description := fn.description, is_documented := true })) i j (fun old =>
          { old with parameters := if fn.parameters = [] then old.parameters
                                   else fn.parameters })) i j (fun old =>
          { old with return_value := if fn.return_value = [] then old.return_value
                                     else fn.return_value })⟩ : LoadState) := by
    rw [load_block_lineR _ _ i j hkeys hfind2 hret2 hret3]
  have hcf3 : catFrame (updFn (updFn (updFn F i j (fun old =>
      { old with description := fn.description, is_documented := true })) i j (fun old =>
      { old with parameters := if fn.parameters = [] then old.parameters
                               else fn.parameters })) i j (fun old =>
      { old with return_value := if fn.return_value = [] then old.return_value
                                 else fn.return_value })) = catFrame F := by
    refine Eq.trans (catFrame_updFn _ i j _ ?_) hcf2
    intro old
    rfl
  have hfind3 : findFn (updFn (updFn (updFn F i j (fun old =>
      { old with description := fn.description, is_documented := true })) i j (fun old =>
      { old with parameters := if fn.parameters = [] then old.parameters
                               else fn.parameters })) i j (fun old =>
      { old with return_value := if fn.return_value = [] then old.return_value
                                 else fn.return_value })) fn.filename fn.name = some (i, j) := by
    rw [findFn_congr _ F hcf3]
    exact hfind
  have A8 : load_step ⟨fn.name, fn.filename,
      updFn (updFn (updFn F i j (fun old =>
        { old with description := fn.description, is_documented := true })) i j (fun old =>
        { old with parameters := if fn.parameters = [] then old.parameters
                                 else fn.parameters })) i j (fun old =>
        { old with return_value := if fn.return_value = [] then old.return_value
                                   else fn.return_value })⟩
      (kwEXAMPLE ++ fn.exampl) =
      (⟨fn.name, fn.filename,
        updFn (updFn (updFn (updFn F i j (fun old =>
          { old with description := fn.description, is_documented := true })) i j (fun old =>
          { old with parameters := if fn.parameters = [] then old.parameters
                                   else fn.parameters })) i j (fun old =>
          { old with return_value := if fn.return_value = [] then old.return_value
                                     else fn.return_value })) i j (fun old =>
          { old with exampl := if fn.exampl = [] then old.exampl
                               else fn.exampl })⟩ : LoadState) := by
    rw [load_block_lineE _ _ i j hkeys hfind3 hexa2 hexa3]
  have hcf4 : catFrame (updFn (updFn (updFn (updFn F i j (fun old =>
      { old with description := fn.description, is_documented := true })) i j (fun old =>
      { old with parameters := if fn.parameters = [] then old.parameters
                               else fn.parameters })) i j (fun old =>
      { old with return_value := if fn.return_value = [] then old.return_value
                                 else fn.return_value })) i j (fun old =>
      { old with exampl := if fn.exampl = [] then old.exampl
                           else fn.exampl })) = catFrame F := by
    refine Eq.trans (catFrame_updFn _ i j _ ?_) hcf3
    intro old
    rfl
  have hfind4 : findFn (updFn (updFn (updFn (updFn F i j (fun old =>
      { old with description := fn.description, is_documented := true })) i j (fun old =>
      { old with parameters := if fn.parameters = [] then old.parameters
                               else fn.parameters })) i j (fun old =>
      { old with return_value := if fn.return_value = [] then old.return_value
                                 else fn.return_value })) i j (fun old =>
      { old with exampl := if fn.exampl = [] then old.exampl
                           else fn.exampl })) fn.filename fn.name = some (i, j) := by
    rw [findFn_congr _ F hcf4]
    exact hfind
  have A9 : load_step ⟨fn.name, fn.filename,
      updFn (updFn (updFn (updFn F i j (fun old =>
        { old with description := fn.description, is_documented := true })) i j (fun old =>
        { old with parameters := if fn.parameters = [] then old.parameters
                                 else fn.parameters })) i j (fun old =>
        { old with return_value := if fn.return_value = [] then old.return_value
                                   else fn.return_value })) i j (fun old =>
        { old with exampl := if fn.exampl = [] then old.exampl
                             else fn.exampl })⟩
      (kwNOTES ++ fn.notes) =
      (⟨fn.name, fn.filename,
        updFn (updFn (updFn (updFn (updFn F i j (fun old =>
          { old with description := fn.description, is_documented := true })) i j (fun old =>
          { old with parameters := if fn.parameters = [] then old.parameters
                                   else fn.parameters })) i j (fun old =>
          { old with return_value := if fn.return_value = [] then old.return_value
                                     else fn.return_value })) i j (fun old =>
          { old with exampl := if fn.exampl = [] then old.exampl
                               else fn.exampl })) i j (fun old =>
          { old with notes := if fn.notes = [] then old.notes
                              else fn.notes })⟩ : LoadState) := by
    rw [load_block_lineN _ _ i j hkeys hfind4 hnot2 hnot3]
  have hcf5 : catFrame (updFn (updFn (updFn (updFn (updFn F i j (fun old =>
      { old with description := fn.description, is_documented := true })) i j (fun old =>
      { old with parameters := if fn.parameters = [] then old.parameters
                               else fn.parameters })) i j (fun old =>
      { old with return_value := if fn.return_value = [] then old.return_value
                                 else fn.return_value })) i j (fun old =>
      { old with exampl := if fn.exampl = [] then old.exampl
                           else fn.exampl })) i j (fun old =>
      { old with notes := if fn.notes = [] then old.notes
                          else fn.notes })) = catFrame F := by
    refine Eq.trans (catFrame_updFn _ i j _ ?_) hcf4
    intro old
    rfl
  have hfind5 : findFn (updFn (updFn (updFn (updFn (updFn F i j (fun old =>
      { old with description := fn.description, is_documented := true })) i j (fun old =>
      { old with parameters := if fn.parameters = [] then old.parameters
                               else fn.parameters })) i j (fun old =>
      { old with return_value := if fn.return_value = [] then old.return_value
                                 else fn.return_value })) i j (fun old =>
      { old with exampl := if fn.exampl = [] then old.exampl
                           else fn.exampl })) i j (fun old =>
      { old with notes := if fn.notes = [] then old.notes
                          else fn.notes })) fn.filename fn.name = some (i, j) := by
    rw [findFn_congr _ F hcf5]
    exact hfind
  have A10 : load_step ⟨fn.name, fn.filename,
      updFn (updFn (updFn (updFn (updFn F i j (fun old =>
        { old with description := fn.description, is_documented := true })) i j (fun old =>
        { old with parameters := if fn.parameters = [] then old.parameters
                                 else fn.parameters })) i j (fun old =>
        { old with return_value := if fn.return_value = [] then old.return_value
                                   else fn.return_value })) i j (fun old =>
        { old with exampl := if fn.exampl = [] then old.exampl
                             else fn.exampl })) i j (fun old =>
        { old with notes := if fn.notes = [] then old.notes
                            else fn.notes })⟩ kwDashes =
      (⟨[], [],
        updFn (updFn (updFn (updFn (updFn F i j (fun old =>
          { old with description := fn.description, is_documented := true })) i j (fun old =>
          { old with parameters := if fn.parameters = [] then old.parameters
                                   else fn.parameters })) i j (fun old =>
          { old with return_value := if fn.return_value = [] then old.return_value
                                     else fn.return_value })) i j (fun old =>
          { old with exampl := if fn.exampl = [] then old.exampl
                               else fn.exampl })) i j (fun old =>
          { old with notes := if fn.notes = [] then old.notes
                              else fn.notes })⟩ : LoadState) := by
    rw [load_block_lineDash _ i j hkeys hfind5]
  unfold docBlock
  simp only [List.foldl_cons, List.foldl_nil]
  rw [A1, A2, A3, A4, A5, A6, A7, A8, A9, A10]
  rw [updFn_updFn, updFn_updFn, updFn_updFn, updFn_updFn]

theorem getFn_updFn_self (F : List SourceFileT) (i j : Nat) (g : FunctionT → FunctionT) :
    getFn (updFn F i j g) i j = (getFn F i j).map g := by
  unfold getFn updFn
  rw [get?_modifyIdx_self]
  cases hF : F.get? i with
  | none => rfl
  | some fl =>
    dsimp only [Option.map_some']
    rw [get?_modifyIdx_self]

theorem getFn_updFn_ne (F : List SourceFileT) (i j i' j' : Nat) (g : FunctionT → FunctionT)
    (h : (i', j') ≠ (i, j)) : getFn (updFn F i j g) i' j' = getFn F i' j' := by
  unfold getFn updFn
  by_cases hi : i = i'
  · subst hi
    have hj : j ≠ j' := by
      intro hc
      exact h (by rw [hc])
    rw [get?_modifyIdx_self]
    cases hF : F.get? i with
    | none => rfl
    | some fl =>
      dsimp only [Option.map_some']
      rw [get?_modifyIdx_ne _ _ _ _ hj]
  · rw [get?_modifyIdx_ne _ _ _ _ hi]

theorem applyBlock_undoc (fn : FunctionT) (hdoc : fn.is_documented = true) :
    applyBlock fn (undoc fn) = fn := by
  cases fn with
  | mk nm sg fl ln d p r e n doc rt =>
    simp only [applyBlock, undoc] at hdoc ⊢
    subst hdoc
    by_cases hp : p = [] <;> by_cases hr : r = [] <;> by_cases he : e = [] <;>
      by_cases hn : n = [] <;> simp [hp, hr, he, hn]

theorem fnFrame_applyBlock (fn old : FunctionT) : fnFrame (applyBlock fn old) = fnFrame old :=
  rfl

/-- Loading a sequence of saved blocks whose target positions are pairwise
distinct and all present in the catalog: every targeted record is replaced by
its documented version, every other record is untouched, the keys end
cleared, and the catalog frame is preserved. -/
theorem loadGo_blocks (B : List (Nat × Nat × FunctionT)) :
    ∀ F : List SourceFileT,
    (∀ t ∈ B,
        findFn F t.2.2.filename t.2.2.name = some (t.1, t.2.1) ∧
        getFn F t.1 t.2.1 = some (undoc t.2.2) ∧
        fieldOK t.2.2) →
    B.Pairwise (fun a b => (a.1, a.2.1) ≠ (b.1, b.2.1)) →
    (List.foldl load_step ⟨[], [], F⟩ ((B.map (fun t => docBlock t.2.2)).flatten)).current_func_name = [] ∧
    (List.foldl load_step ⟨[], [], F⟩ ((B.map (fun t => docBlock t.2.2)).flatten)).current_filename = [] ∧
    (∀ t ∈ B,
      getFn (List.foldl load_step ⟨[], [], F⟩ ((B.map (fun t => docBlock t.2.2)).flatten)).files
        t.1 t.2.1 = some t.2.2) ∧
    (∀ i j : Nat, (∀ t ∈ B, (i, j) ≠ (t.1, t.2.1)) →
      getFn (List.foldl load_step ⟨[], [], F⟩ ((B.map (fun t => docBlock t.2.2)).flatten)).files
        i j = getFn F i j) ∧
    catFrame (List.foldl load_step ⟨[], [], F⟩
        ((B.map (fun t => docBlock t.2.2)).flatten)).files = catFrame F := by
  induction B with
  | nil =>
    intro F hB hdist
    refine ⟨rfl, rfl, ?_, ?_, rfl⟩
    · intro t ht
      cases ht
    · intro i j h
      rfl
  | cons t B' ih =>
    intro F hB hdist
    obtain ⟨hfind, hget, hok⟩ := hB t (List.mem_cons_self t B')
    obtain ⟨hdoc, hn1, hn2, hn3, hf1, hf2, hf3, hd1, hd2, hd3, hp2, hp3, hr2, hr3,
      he2, he3, hno2, hno3⟩ := hok
    have hblock : List.foldl load_step ⟨[], [], F⟩ (docBlock t.2.2) =
        ⟨[], [], updFn F t.1 t.2.1 (applyBlock t.2.2)⟩ :=
      loadGo_docBlock F t.2.2 t.1 t.2.1 hfind hn1 hn2 hn3 hf1 hf2 hf3 hd1 hd2 hd3
        hp2 hp3 hr2 hr3 he2 he3 hno2 hno3
    have hsplit : ((t :: B').map (fun t => docBlock t.2.2)).flatten =
        docBlock t.2.2 ++ (B'.map (fun t => docBlock t.2.2)).flatten := by
      rw [List.map_cons, List.flatten_cons]
    rw [hsplit, List.foldl_append, hblock]
    have hframe1 : catFrame (updFn F t.1 t.2.1 (applyBlock t.2.2)) = catFrame F :=
      catFrame_updFn F t.1 t.2.1 (applyBlock t.2.2) (fun old => rfl)
    have hdist' := (List.pairwise_cons.mp hdist).2
    have hhead := (List.pairwise_cons.mp hdist).1
    have hB' : ∀ u ∈ B',
        findFn (updFn F t.1 t.2.1 (applyBlock t.2.2)) u.2.2.filename u.2.2.name =
          some (u.1, u.2.1) ∧
        getFn (updFn F t.1 t.2.1 (applyBlock t.2.2)) u.1 u.2.1 = some (undoc u.2.2) ∧
        fieldOK u.2.2 := by
      intro u hu
      obtain ⟨hufind, huget, huok⟩ := hB u (List.mem_cons_of_mem t hu)
      refine ⟨?_, ?_, huok⟩
      · rw [findFn_congr _ F hframe1]
        exact hufind
      · rw [getFn_updFn_ne F t.1 t.2.1 u.1 u.2.1 _ ?_]
        · exact huget
        · intro hc
          exact (hhead u hu) (by rw [← hc])
    obtain ⟨ih1, ih2, ih3, ih4, ih5⟩ := ih (updFn F t.1 t.2.1 (applyBlock t.2.2)) hB' hdist'
    refine ⟨ih1, ih2, ?_, ?_, ?_⟩
    · intro u hu
      rcases List.mem_cons.mp hu with rfl | hu'
      · rw [ih4 u.1 u.2.1 ?_]
        · rw [getFn_updFn_self, hget]
          dsimp only [Option.map_some']
          rw [applyBlock_undoc _ hdoc]
        · intro v hv hc
          exact (hhead v hv) hc
      · exact ih3 u hu'
    · intro i j hij
      rw [ih4 i j ?_]
      · rw [getFn_updFn_ne F t.1 t.2.1 i j _ (hij t (List.mem_cons_self t B'))]
      · intro u hu
        exact hij u (List.mem_cons_of_mem t hu)
    · rw [ih5, hframe1]

/-! Facts about scanned records, needed for the round trip. -/

theorem not_space_of_ident (c : Char) (h : isIdentC c = true) : isSpaceC c = false := by
  cases hc : isSpaceC c with
  | false => rfl
  | true =>
    exfalso
    have hor : c = ' ' ∨ c = '\t' ∨ c = '\n' ∨ c = '\x0b' ∨ c = '\x0c' ∨ c = '\r' := by
      simpa only [isSpaceC, Bool.or_eq_true, decide_eq_true_eq, or_assoc] using hc
    rcases hor with rfl | rfl | rfl | rfl | rfl | rfl <;> exact absurd h (by decide)

theorem mem_of_getLast?_own (l : List Char) (c : Char) (h : l.getLast? = some c) : c ∈ l := by
  induction l with
  | nil => cases h
  | cons a t ih =>
    cases t with
    | nil =>
      have ha : a = c := by simpa using h
      subst ha
      exact List.mem_cons_self _ _
    | cons b t2 =>
      rw [List.getLast?_cons_cons] at h
      exact List.mem_cons_of_mem a (ih h)

theorem backScan_succ (l : List Char) (j : Nat) :
    backScan l (j + 1) = if isIdentC (l.getD (j + 1) ' ') then backScan l j else j + 1 := rfl

theorem rstrip_eq_self_of_getLast? (l : List Char) (c : Char) (h : l.getLast? = some c)
    (hc : isSpaceC c = false) : rstrip l = l := by
  induction l with
  | nil => rfl
  | cons a t ih =>
    cases t with
    | nil =>
      have ha : a = c := by simpa using h
      subst ha
      simp [rstrip, hc]
    | cons b t2 =>
      rw [List.getLast?_cons_cons] at h
      have hrec : rstrip (b :: t2) = b :: t2 := ih h
      rw [rstrip_cons, hrec]

theorem rstrip_eq_self_of_all_ident (l : List Char) (h : ∀ c ∈ l, isIdentC c = true) :
    rstrip l = l := by
  cases hl : l.getLast? with
  | none =>
    rw [List.getLast?_eq_none_iff] at hl
    subst hl
    rfl
  | some c =>
    have hc : c ∈ l := mem_of_getLast?_own l c hl
    exact rstrip_eq_self_of_getLast? l c hl (not_space_of_ident c (h c hc))

theorem ends_with_2_getLast? (s : List Char) (c1 c2 : Char) (h : ends_with_2 s c1 c2 = true) :
    s.getLast? = some c2 ∧ 2 < s.length := by
  unfold ends_with_2 at h
  rw [Bool.and_eq_true] at h
  obtain ⟨h1, h2⟩ := h
  have hlen : 2 < s.length := of_decide_eq_true h1
  have hdrop : s.drop (s.length - 2) = [c1, c2] := eq_of_beq h2
  have hs : s = s.take (s.length - 2) ++ [c1, c2] := by
    conv_lhs => rw [← List.take_append_drop (s.length - 2) s]
    rw [hdrop]
  refine ⟨?_, hlen⟩
  conv_lhs => rw [hs]
  rw [List.getLast?_append_of_ne_nil _ (by simp)]
  rfl

theorem backScan_ident (l : List Char) : ∀ (i k : Nat), backScan l i < k → k ≤ i →
    isIdentC (l.getD k ' ') = true := by
  intro i
  induction i with
  | zero =>
    intro k h1 h2
    omega
  | succ j ih =>
    intro k h1 h2
    by_cases hc : isIdentC (l.getD (j + 1) ' ') = true
    · rw [backScan_succ, if_pos hc] at h1
      by_cases hk : k = j + 1
      · rw [hk]
        exact hc
      · exact ih k h1 (by omega)
    · rw [backScan_succ, if_neg hc] at h1
      omega

theorem get?_drop_own {α : Type} (l : List α) : ∀ (s m : Nat),
    (l.drop s).get? m = l.get? (s + m) := by
  induction l with
  | nil => intro s m; simp
  | cons a t ih =>
    intro s m
    cases s with
    | zero => simp
    | succ s' =>
      rw [List.drop_succ_cons, ih s' m]
      rw [show s' + 1 + m = (s' + m) + 1 from by omega]
      rfl

theorem mem_take_drop {α : Type} (x : α) (l : List α) (s n : Nat)
    (h : x ∈ (l.drop s).take n) : ∃ k, s ≤ k ∧ k < s + n ∧ l.get? k = some x := by
  obtain ⟨m, hm⟩ := List.get?_of_mem h
  have hmlt : m < ((l.drop s).take n).length := by
    cases hcm : ((l.drop s).take n).get? m with
    | none => rw [hcm] at hm; cases hm
    | some y =>
      by_contra hcontr
      rw [List.get?_eq_none.mpr (by omega)] at hcm
      cases hcm
  have hmn : m < n := by
    have := List.length_take_le n (l.drop s)
    omega
  rw [List.get?_take hmn, get?_drop_own] at hm
  exact ⟨s + m, by omega, by omega, hm⟩

theorem extract_name_facts (sig nm : List Char) (h : extract_function_name sig = some nm) :
    nm ≠ [] ∧ nm.length ≤ 127 ∧ (∀ c ∈ nm, isIdentC c = true) := by
  unfold extract_function_name at h
  cases hfi : firstIdxG (fun c => c == '(') sig with
  | none => rw [hfi] at h; cases h
  | some p =>
    rw [hfi] at h
    dsimp only at h
    by_cases hp : p = 0
    · rw [if_pos hp] at h; cases h
    · rw [if_neg hp] at h
      by_cases hge : backScan sig (p - 1) + 1 ≥ p
      · rw [if_pos hge] at h; cases h
      · rw [if_neg hge] at h
        have hlen_le : (if p - (backScan sig (p - 1) + 1) ≥ 128 then 127
            else p - (backScan sig (p - 1) + 1)) ≤ 127 := by
          by_cases hbig : p - (backScan sig (p - 1) + 1) ≥ 128
          · rw [if_pos hbig]
          · rw [if_neg hbig]
            omega
        have hlen_le2 : (if p - (backScan sig (p - 1) + 1) ≥ 128 then 127
            else p - (backScan sig (p - 1) + 1)) ≤ p - (backScan sig (p - 1) + 1) := by
          by_cases hbig : p - (backScan sig (p - 1) + 1) ≥ 128
          · rw [if_pos hbig]
            omega
          · rw [if_neg hbig]
        by_cases hpos : ((sig.drop (backScan sig (p - 1) + 1)).take
            (if p - (backScan sig (p - 1) + 1) ≥ 128 then 127
             else p - (backScan sig (p - 1) + 1))).length > 0
        · rw [if_pos hpos] at h
          obtain rfl : (sig.drop (backScan sig (p - 1) + 1)).take
              (if p - (backScan sig (p - 1) + 1) ≥ 128 then 127
               else p - (backScan sig (p - 1) + 1)) = nm := Option.some.inj h
          refine ⟨?_, ?_, ?_⟩
          · intro hnil
            rw [hnil] at hpos
            simp at hpos
          · calc _ ≤ _ := List.length_take_le _ _
              _ ≤ 127 := hlen_le
          · intro c hc
            obtain ⟨k, hk1, hk2, hk3⟩ := mem_take_drop c sig _ _ hc
            have hkle : k ≤ p - 1 := by omega
            have hkgt : backScan sig (p - 1) < k := by omega
            have := backScan_ident sig (p - 1) k hkgt hkle
            rw [List.getD] at this
            rw [hk3] at this
            simpa using this
        · rw [if_neg hpos] at h
          cases h

theorem parse_c_lines_mem (filepath : List Char) :
    ∀ (content : List (List Char)) (ln : Nat) (acc : List FunctionT) (fn : FunctionT),
    fn ∈ parse_c_lines filepath content ln acc →
    fn ∈ acc ∨ ∃ line nm k, extract_function_name line = some nm ∧
      fn = mkFunction line nm filepath k := by
  intro content
  induction content with
  | nil =>
    intro ln acc fn hmem
    exact Or.inl hmem
  | cons raw rest ih =>
    intro ln acc fn hmem
    unfold parse_c_lines at hmem
    by_cases hcap : acc.length ≥ 100
    · rw [if_pos hcap] at hmem
      exact Or.inl hmem
    · rw [if_neg hcap] at hmem
      dsimp only at hmem
      by_cases hline : is_function_line (trim_whitespace raw) filepath = true
      · rw [if_pos hline] at hmem
        cases hext : extract_function_name (trim_whitespace raw) with
        | none =>
          rw [hext] at hmem
          exact ih (ln + 1) acc fn hmem
        | some nm =>
          rw [hext] at hmem
          rcases ih (ln + 1) _ fn hmem with hacc | hnew
          · rcases List.mem_append.mp hacc with h1 | h2
            · exact Or.inl h1
            · right
              refine ⟨trim_whitespace raw, nm, ln + 1, hext, ?_⟩
              simpa using h2
          · exact Or.inr hnew
      · rw [if_neg hline] at hmem
        exact ih (ln + 1) acc fn hmem

theorem scan_go_mem : ∀ (listing : List (List Char × List (List Char)))
    (acc : List SourceFileT) (fl : SourceFileT), fl ∈ scan_go listing acc →
    fl ∈ acc ∨ ∃ nm content, (nm, content) ∈ listing ∧ is_c_file nm = true ∧
      fl = { filename := nm.take 255, full_path := nm.take 255,
             functions := parse_c_file nm content } := by
  intro listing
  induction listing with
  | nil =>
    intro acc fl h
    exact Or.inl h
  | cons e rest ih =>
    intro acc fl h
    obtain ⟨nm, content⟩ := e
    unfold scan_go at h
    by_cases hcap : acc.length ≥ 100
    · rw [if_pos hcap] at h
      exact Or.inl h
    · rw [if_neg hcap] at h
      by_cases hcf : is_c_file nm = true
      · rw [if_pos hcf] at h
        dsimp only at h
        by_cases hn : (parse_c_file nm content).length > 0
        · rw [if_pos hn] at h
          rcases ih _ fl h with hacc | hnew
          · rcases List.mem_append.mp hacc with h1 | h2
            · exact Or.inl h1
            · right
              refine ⟨nm, content, List.mem_cons_self _ _, hcf, ?_⟩
              simpa using h2
          · obtain ⟨nm2, c2, hmem2, hcf2, heq2⟩ := hnew
            exact Or.inr ⟨nm2, c2, List.mem_cons_of_mem _ hmem2, hcf2, heq2⟩
        · rw [if_neg hn] at h
          rcases ih _ fl h with hacc | hnew
          · exact Or.inl hacc
          · obtain ⟨nm2, c2, hmem2, hcf2, heq2⟩ := hnew
            exact Or.inr ⟨nm2, c2, List.mem_cons_of_mem _ hmem2, hcf2, heq2⟩
      · rw [if_neg hcf] at h
        rcases ih _ fl h with hacc | hnew
        · exact Or.inl hacc
        · obtain ⟨nm2, c2, hmem2, hcf2, heq2⟩ := hnew
          exact Or.inr ⟨nm2, c2, List.mem_cons_of_mem _ hmem2, hcf2, heq2⟩

theorem scan_fn_props (listing : List (List Char × List (List Char)))
    (hl : ∀ e ∈ listing, e.1.length ≤ 255)
    (fl : SourceFileT) (hfl : fl ∈ scan_project_files listing)
    (fn : FunctionT) (hfn : fn ∈ fl.functions) :
    fn.name ≠ [] ∧ fn.name.length ≤ 127 ∧ rstrip fn.name = fn.name ∧
    fn.filename = fl.filename ∧
    fl.filename ≠ [] ∧ fl.filename.length ≤ 255 ∧ rstrip fl.filename = fl.filename ∧
    fn.description = [] ∧ fn.parameters = [] ∧ fn.return_value = [] ∧
    fn.exampl = [] ∧ fn.notes = [] ∧ fn.is_documented = false := by
  rcases scan_go_mem listing [] fl hfl with hacc | ⟨nm, content, hmem, hcf, heq⟩
  · cases hacc
  · have htake : nm.take 255 = nm := List.take_of_length_le (hl (nm, content) hmem)
    have hfname : fl.filename = nm := by rw [heq, htake]
    have hlast := ends_with_2_getLast? nm '.' 'c'
    have hlast2 := ends_with_2_getLast? nm '.' 'h'
    have hfile_props : nm ≠ [] ∧ nm.length ≤ 255 ∧ rstrip nm = nm := by
      unfold is_c_file at hcf
      rw [Bool.or_eq_true] at hcf
      rcases hcf with hc | hc
      · obtain ⟨hg, hlen⟩ := hlast hc
        refine ⟨?_, hl (nm, content) hmem, rstrip_eq_self_of_getLast? nm 'c' hg (by decide)⟩
        intro hnil
        rw [hnil] at hlen
        simp at hlen
      · obtain ⟨hg, hlen⟩ := hlast2 hc
        refine ⟨?_, hl (nm, content) hmem, rstrip_eq_self_of_getLast? nm 'h' hg (by decide)⟩
        intro hnil
        rw [hnil] at hlen
        simp at hlen
    have hfnmem : fn ∈ parse_c_file nm content := by
      rw [heq] at hfn
      exact hfn
    rcases parse_c_lines_mem nm content 0 [] fn hfnmem with hnil | ⟨line, nm2, k, hext, hfn_eq⟩
    · cases hnil
    · obtain ⟨hne, h127, hid⟩ := extract_name_facts line nm2 hext
      subst hfn_eq
      refine ⟨hne, h127, rstrip_eq_self_of_all_ident nm2 hid, ?_, ?_, ?_, ?_,
        rfl, rfl, rfl, rfl, rfl, rfl⟩
      · rw [hfname]
        unfold mkFunction
        exact htake
      · rw [hfname]
        exact hfile_props.1
      · rw [hfname]
        exact hfile_props.2.1
      · rw [hfname]
        exact hfile_props.2.2

/-! The save output as a list of blocks indexed by catalog position. -/

theorem triplesFns_map (i : Nat) (fns : List FunctionT) : ∀ j : Nat,
    ((triplesFns i j fns).map (fun t => docBlock t.2.2)).flatten =
      (fns.map (fun fn => if fn.is_documented then docBlock fn else [])).flatten := by
  induction fns with
  | nil => intro j; rfl
  | cons fn rest ih =>
    intro j
    simp only [triplesFns, List.map_append, List.flatten_append, List.map_cons,
      List.flatten_cons]
    rw [ih (j + 1)]
    by_cases h : fn.is_documented = true
    · rw [if_pos h, if_pos h]
      simp
    · rw [if_neg h, if_neg h]
      simp

theorem triplesCat_map (files : List SourceFileT) : ∀ i : Nat,
    ((triplesCat i files).map (fun t => docBlock t.2.2)).flatten =
      (files.map fileBlocks).flatten := by
  induction files with
  | nil => intro i; rfl
  | cons fl rest ih =>
    intro i
    simp only [triplesCat, List.map_append, List.flatten_append, List.map_cons,
      List.flatten_cons]
    rw [ih (i + 1), triplesFns_map i fl.functions 0]
    rfl

theorem triplesFns_mem (i : Nat) (fns : List FunctionT) : ∀ (j : Nat) (t : Nat × Nat × FunctionT),
    t ∈ triplesFns i j fns ↔
      ∃ k fn, fns.get? k = some fn ∧ fn.is_documented = true ∧ t = (i, j + k, fn) := by
  induction fns with
  | nil =>
    intro j t
    constructor
    · intro h
      cases h
    · rintro ⟨k, fn, hk, -, -⟩
      rw [List.get?_nil] at hk
      cases hk
  | cons fn rest ih =>
    intro j t
    simp only [triplesFns, List.mem_append]
    constructor
    · intro h
      rcases h with h1 | h2
      · by_cases hd : fn.is_documented = true
        · rw [if_pos hd] at h1
          have ht : t = (i, j, fn) := by simpa using h1
          refine ⟨0, fn, rfl, hd, ?_⟩
          rw [ht]
          simp
        · rw [if_neg hd] at h1
          cases h1
      · rcases (ih (j + 1) t).mp h2 with ⟨k, g, hk, hdg, ht⟩
        refine ⟨k + 1, g, hk, hdg, ?_⟩
        rw [ht]
        have harith : j + 1 + k = j + (k + 1) := by omega
        rw [harith]
    · rintro ⟨k, g, hk, hdg, ht⟩
      cases k with
      | zero =>
        left
        have hg : fn = g := by simpa using hk
        subst hg
        rw [if_pos hdg, ht]
        simp
      | succ k2 =>
        right
        refine (ih (j + 1) t).mpr ⟨k2, g, by simpa using hk, hdg, ?_⟩
        rw [ht]
        have harith : j + (k2 + 1) = j + 1 + k2 := by omega
        rw [harith]

theorem triplesCat_mem (files : List SourceFileT) : ∀ (i : Nat) (t : Nat × Nat × FunctionT),
    t ∈ triplesCat i files ↔
      ∃ a fl j fn, files.get? a = some fl ∧ fl.functions.get? j = some fn ∧
        fn.is_documented = true ∧ t = (i + a, j, fn) := by
  induction files with
  | nil =>
    intro i t
    constructor
    · intro h
      cases h
    · rintro ⟨a, fl, j, fn, ha, -, -, -⟩
      rw [List.get?_nil] at ha
      cases ha
  | cons fl rest ih =>
    intro i t
    simp only [triplesCat, List.mem_append]
    constructor
    · intro h
      rcases h with h1 | h2
      · rcases (triplesFns_mem i fl.functions 0 t).mp h1 with ⟨k, fn, hk, hd, ht⟩
        refine ⟨0, fl, k, fn, rfl, hk, hd, ?_⟩
        rw [ht]
        simp
      · rcases (ih (i + 1) t).mp h2 with ⟨a, fl2, j, fn, ha, hj, hd, ht⟩
        refine ⟨a + 1, fl2, j, fn, by simpa using ha, hj, hd, ?_⟩
        rw [ht]
        have harith : i + 1 + a = i + (a + 1) := by omega
        rw [harith]
    · rintro ⟨a, fl2, j, fn, ha, hj, hd, ht⟩
      cases a with
      | zero =>
        left
        have hfl : fl = fl2 := by simpa using ha
        subst hfl
        refine (triplesFns_mem i fl.functions 0 t).mpr ⟨j, fn, hj, hd, ?_⟩
        rw [ht]
        simp
      | succ a2 =>
        right
        refine (ih (i + 1) t).mpr ⟨a2, fl2, j, fn, by simpa using ha, hj, hd, ?_⟩
        rw [ht]
        have harith : i + (a2 + 1) = i + 1 + a2 := by omega
        rw [harith]

theorem triplesFns_bound (i : Nat) (fns : List FunctionT) (j : Nat)
    (t : Nat × Nat × FunctionT) (h : t ∈ triplesFns i j fns) : t.1 = i ∧ j ≤ t.2.1 := by
  rcases (triplesFns_mem i fns j t).mp h with ⟨k, fn, -, -, ht⟩
  rw [ht]
  refine ⟨rfl, ?_⟩
  show j ≤ j + k
  omega

theorem triplesCat_bound (files : List SourceFileT) (i : Nat)
    (t : Nat × Nat × FunctionT) (h : t ∈ triplesCat i files) : i ≤ t.1 := by
  rcases (triplesCat_mem files i t).mp h with ⟨a, fl, j, fn, -, -, -, ht⟩
  rw [ht]
  show i ≤ i + a
  omega

theorem triplesFns_pairwise (i : Nat) (fns : List FunctionT) : ∀ j : Nat,
    (triplesFns i j fns).Pairwise (fun a b => (a.1, a.2.1) ≠ (b.1, b.2.1)) := by
  induction fns with
  | nil => intro j; exact List.Pairwise.nil
  | cons fn rest ih =>
    intro j
    simp only [triplesFns]
    by_cases hd : fn.is_documented = true
    · rw [if_pos hd]
      refine List.pairwise_append.mpr ⟨List.pairwise_singleton _ _, ih (j + 1), ?_⟩
      intro a ha b hb
      have ha2 : a = (i, j, fn) := by simpa using ha
      have hb2 := (triplesFns_bound i rest (j + 1) b hb).2
      rw [ha2]
      intro hc
      dsimp only at hc
      rw [Prod.mk.injEq] at hc
      obtain ⟨-, h2⟩ := hc
      omega
    · rw [if_neg hd]
      simpa using ih (j + 1)

theorem triplesCat_pairwise (files : List SourceFileT) : ∀ i : Nat,
    (triplesCat i files).Pairwise (fun a b => (a.1, a.2.1) ≠ (b.1, b.2.1)) := by
  induction files with
  | nil => intro i; exact List.Pairwise.nil
  | cons fl rest ih =>
    intro i
    simp only [triplesCat]
    refine List.pairwise_append.mpr ⟨triplesFns_pairwise i fl.functions 0, ih (i + 1), ?_⟩
    intro a ha b hb
    have ha2 := (triplesFns_bound i fl.functions 0 a ha).1
    have hb2 := triplesCat_bound rest (i + 1) b hb
    intro hc
    rw [Prod.mk.injEq] at hc
    obtain ⟨h1, -⟩ := hc
    omega

theorem triplesCat_getFn (files : List SourceFileT) (t : Nat × Nat × FunctionT)
    (h : t ∈ triplesCat 0 files) :
    getFn files t.1 t.2.1 = some t.2.2 ∧ t.2.2.is_documented = true := by
  rcases (triplesCat_mem files 0 t).mp h with ⟨a, fl, j, fn, ha, hj, hd, ht⟩
  rw [ht]
  dsimp only
  refine ⟨?_, hd⟩
  show getFn files (0 + a) j = some fn
  rw [Nat.zero_add]
  unfold getFn
  rw [ha]
  dsimp only
  exact hj

theorem triplesCat_complete (files : List SourceFileT) (i j : Nat) (fn : FunctionT)
    (h : getFn files i j = some fn) (hd : fn.is_documented = true) :
    (i, j, fn) ∈ triplesCat 0 files := by
  unfold getFn at h
  cases hfl : files.get? i with
  | none =>
    rw [hfl] at h
    cases h
  | some fl =>
    rw [hfl] at h
    dsimp only at h
    refine (triplesCat_mem files 0 (i, j, fn)).mpr ⟨i, fl, j, fn, hfl, h, hd, ?_⟩
    simp

/-! Transport along the catalog frame, and the header lines of the store. -/

theorem getFn_mem (cat : List SourceFileT) (i j : Nat) (fn : FunctionT)
    (h : getFn cat i j = some fn) : ∃ fl ∈ cat, fn ∈ fl.functions := by
  unfold getFn at h
  cases hfl : cat.get? i with
  | none =>
    rw [hfl] at h
    cases h
  | some fl =>
    rw [hfl] at h
    dsimp only at h
    exact ⟨fl, List.get?_mem hfl, List.get?_mem h⟩

theorem getFn_frame (cat F : List SourceFileT) (hframe : catFrame cat = catFrame F)
    (i j : Nat) (fn : FunctionT) (h : getFn cat i j = some fn) :
    ∃ fl g, F.get? i = some fl ∧ fl.functions.get? j = some g ∧ fnFrame g = fnFrame fn := by
  unfold getFn at h
  cases hfl : cat.get? i with
  | none =>
    rw [hfl] at h
    cases h
  | some flc =>
    rw [hfl] at h
    dsimp only at h
    unfold catFrame at hframe
    have h1 : (F.map fileFrame).get? i = some (fileFrame flc) := by
      rw [← hframe, List.get?_map, hfl]
      rfl
    rw [List.get?_map] at h1
    cases hFl : F.get? i with
    | none =>
      rw [hFl] at h1
      cases h1
    | some fl =>
      rw [hFl] at h1
      have h2 : fileFrame fl = fileFrame flc := by simpa using h1
      have h3 : fl.functions.map fnFrame = flc.functions.map fnFrame := by
        have h4 := congrArg (fun p => p.2.2) h2
        simpa [fileFrame] using h4
      have h5 : (fl.functions.map fnFrame).get? j = some (fnFrame fn) := by
        rw [h3, List.get?_map, h]
        rfl
      rw [List.get?_map] at h5
      cases hg : fl.functions.get? j with
      | none =>
        rw [hg] at h5
        cases h5
      | some g =>
        rw [hg] at h5
        exact ⟨fl, g, rfl, hg, by simpa using h5⟩

theorem eq_undoc_of_frame (x y : FunctionT) (hf : fnFrame x = fnFrame y)
    (h1 : x.description = []) (h2 : x.parameters = []) (h3 : x.return_value = [])
    (h4 : x.exampl = []) (h5 : x.notes = []) (h6 : x.is_documented = false) :
    x = undoc y := by
  cases x
  cases y
  simp only [fnFrame, Prod.mk.injEq] at hf
  simp_all [undoc]

theorem load_header (F : List SourceFileT) :
    List.foldl load_step ⟨[], [], F⟩
      ["# Project Documentation".data,
       "# Auto-generated - do not edit the function signatures".data,
       []] = ⟨[], [], F⟩ := rfl

/-- C2 amended: the round trip does restore every documented record whose
description is non-empty.  When the catalog agrees with a fresh scan of the
listing on the frame (names, signatures, files, lines, return types), file
names and per-file function names are free of duplicates and every
documented record keeps its five fields within the C buffer bounds, without
trailing whitespace and with a non-empty description, then saving the
catalog and loading the store back over the fresh scan returns every
documented record verbatim, flag included.  (The description hypothesis is
what the original claim is missing: a documented record with an empty
description comes back with is_documented = false, see C2_counterexample.) -/
theorem C2_amended (listing : List (List Char × List (List Char)))
    (hl : ∀ e ∈ listing, e.1.length ≤ 255)
    (cat : List SourceFileT)
    (hframe : catFrame cat = catFrame (scan_project_files listing))
    (hnodupF : ((scan_project_files listing).map (fun fl => fl.filename)).Nodup)
    (hnodupN : ∀ fl ∈ scan_project_files listing,
      (fl.functions.map (fun fn => fn.name)).Nodup)
    (hdoc : ∀ fl ∈ cat, ∀ fn ∈ fl.functions, fn.is_documented = true → docOK fn)
    (i j : Nat) (fn : FunctionT)
    (hget : getFn cat i j = some fn) (hd : fn.is_documented = true) :
    getFn (load_documentation (save_documentation cat) (scan_project_files listing)) i j
      = some fn := by
  set F := scan_project_files listing with hF
  have hB : ∀ t ∈ triplesCat 0 cat,
      findFn F t.2.2.filename t.2.2.name = some (t.1, t.2.1) ∧
      getFn F t.1 t.2.1 = some (undoc t.2.2) ∧ fieldOK t.2.2 := by
    intro t ht
    obtain ⟨htg, htd⟩ := triplesCat_getFn cat t ht
    obtain ⟨fl, g, hFl, hg, hfg⟩ := getFn_frame cat F hframe t.1 t.2.1 t.2.2 htg
    have hflmem : fl ∈ F := List.get?_mem hFl
    have hgmem : g ∈ fl.functions := List.get?_mem hg
    obtain ⟨gn1, gn2, gn3, gfn, gf1, gf2, gf3, gd, gp, gr, ge, gno, gid⟩ :=
      scan_fn_props listing hl fl hflmem g hgmem
    have e1 : g.name = t.2.2.name := congrArg (fun p => p.1) hfg
    have e3 : g.filename = t.2.2.filename := congrArg (fun p => p.2.2.1) hfg
    have hffn : fl.filename = t.2.2.filename := by
      rw [← gfn]
      exact e3
    obtain ⟨flc, hflc, hfnmem⟩ := getFn_mem cat t.1 t.2.1 t.2.2 htg
    obtain ⟨d1, d2, d3, p2, p3, r2, r3, x2, x3, n2, n3⟩ :=
      hdoc flc hflc t.2.2 hfnmem htd
    refine ⟨?_, ?_, ?_⟩
    · have hfind := findFn_self F t.1 t.2.1 fl g hFl hg hnodupF (hnodupN fl hflmem)
      rw [← hffn, ← e1]
      exact hfind
    · have hgF : getFn F t.1 t.2.1 = some g := by
        unfold getFn
        rw [hFl]
        dsimp only
        exact hg
      have hgu : g = undoc t.2.2 := eq_undoc_of_frame g t.2.2 hfg gd gp gr ge gno gid
      rw [hgF, hgu]
    · exact ⟨htd, e1 ▸ gn1, e1 ▸ gn2, e1 ▸ gn3, hffn ▸ gf1, hffn ▸ gf2, hffn ▸ gf3,
        d1, d2, d3, p2, p3, r2, r3, x2, x3, n2, n3⟩
  obtain ⟨-, -, h3, -, -⟩ := loadGo_blocks (triplesCat 0 cat) F hB (triplesCat_pairwise cat 0)
  have hres := h3 (i, j, fn) (triplesCat_complete cat i j fn hget hd)
  unfold load_documentation
  have hsave : save_documentation cat =
      ["# Project Documentation".data,
       "# Auto-generated - do not edit the function signatures".data,
       []] ++ (cat.map fileBlocks).flatten := rfl
  rw [hsave, List.foldl_append, load_header, ← triplesCat_map cat 0]
  exact hres

/-- Closed instance of C2_amended: the one-file catalog with its single
function documented through the description "d" survives the save/load
round trip. -/
theorem C2_witness :
    getFn (load_documentation (save_documentation catW) (scan_project_files listingW)) 0 0
      = some fnW :=
  C2_amended listingW (by decide) catW (by rfl) (by decide) (by decide) (by decide)
    0 0 fnW (by rfl) (by rfl)

/-- C2 counterexample: a record documented with the flag set but an empty
description is saved, yet reloading the store over a fresh scan of the same
listing returns it with is_documented = false, so the round trip does not
restore every documented function. -/
theorem C2_counterexample :
    (getFn catC 0 0).map (fun fn => fn.is_documented) = some true ∧
    (getFn (load_documentation (save_documentation catC) (scan_project_files listingW)) 0 0).map
      (fun fn => fn.is_documented) = some false := by
  exact ⟨by decide, by decide⟩
